import Mathlib

/-!
Verification of the AutoTrader orchestration core.

This file gives a shallow embedding of the trading engine:

* the broker order book and the protective-exit operations of
  src/trading/executor.py (upsert_stop_loss, upsert_take_profit,
  execute_buy_order, sell_position, calculate_position_size);
* the per-candidate research gates, per-currency budget computation and the
  sequential selection/execution loop of src/trader/runner.py;
* the position-review decision execution of src/trading/position_manager.py;
* the runtime-config flattening/validation of src/utils/runtime_config.py;
* the per-symbol timeout helper of src/trader/timeout.py.

Monetary quantities and prices are modelled as rationals; Python `int(...)`
truncation and `//` floor division are modelled explicitly.
-/

namespace AutoTrader

/-- Truncation toward zero, the semantics of Python `int(float)`. -/
def pyInt (q : ℚ) : ℤ :=
  if 0 ≤ q then ⌊q⌋ else -⌊-q⌋

/-! ## Order model

An open order as seen through ib_insync: `orderId`, contract symbol, action
(BUY/SELL), order type (MKT/LMT/STP), quantity, limit price, aux (stop) price,
optional OCA group, and parent id (0 = standalone). -/

inductive OrderAction where
  | buy
  | sell
deriving DecidableEq

inductive OrderKind where
  | mkt
  | lmt
  | stp
deriving DecidableEq

structure Order where
  orderId : Nat
  symbol : String
  action : OrderAction
  orderType : OrderKind
  totalQuantity : Int
  lmtPrice : ℚ
  auxPrice : ℚ
  ocaGroup : Option String
  parentId : Nat
deriving DecidableEq

/-- `TradeExecutor.get_open_trades_for_symbol`: all open orders whose contract
symbol matches. -/
def tradesForSymbol (book : List Order) (sym : String) : List Order :=
  book.filter (fun o => o.symbol == sym)

/-- Predicate for a protective stop: SELL STP order for the symbol. -/
def isSellStop (sym : String) (o : Order) : Bool :=
  o.symbol == sym && (o.orderType == OrderKind.stp && o.action == OrderAction.sell)

/-- Predicate for a take-profit: SELL LMT order for the symbol. -/
def isSellLimit (sym : String) (o : Order) : Bool :=
  o.symbol == sym && (o.orderType == OrderKind.lmt && o.action == OrderAction.sell)

/-- The `stop_trades` list of `upsert_stop_loss` / `upsert_take_profit`. -/
def stopTrades (book : List Order) (sym : String) : List Order :=
  (tradesForSymbol book sym).filter
    (fun o => o.orderType == OrderKind.stp && o.action == OrderAction.sell)

/-- The `tp_trades` list of `upsert_stop_loss` / `upsert_take_profit`. -/
def tpTrades (book : List Order) (sym : String) : List Order :=
  (tradesForSymbol book sym).filter
    (fun o => o.orderType == OrderKind.lmt && o.action == OrderAction.sell)

/-- Replacement of an order by a `placeOrder` call reusing its order id. -/
def replOf (repl : List Order) (o : Order) : Order :=
  match repl.find? (fun r => r.orderId == o.orderId) with
  | some r => r
  | none => o

/-- Net effect on the open-order book of a batch of `cancelOrder` calls
(removal) and `placeOrder` calls that reuse an existing order id
(modification in place). -/
def applyBook (book : List Order) (cancelIds : List Nat) (repl : List Order) :
    List Order :=
  (book.filter (fun o => !(cancelIds.contains o.orderId))).map (replOf repl)

/-- `TradeExecutor._round_price_down_to_tick`. -/
def roundDownToTick (price minTick : ℚ) : ℚ :=
  if minTick ≤ 0 then price else (⌊price / minTick⌋ : ℤ) * minTick

/-- `TradeExecutor._round_price_up_to_tick`. -/
def roundUpToTick (price minTick : ℚ) : ℚ :=
  if minTick ≤ 0 then price else (⌈price / minTick⌉ : ℤ) * minTick

/-- The truthiness guard `if min_tick:` around rounding in both upserts. -/
def roundIfTick (round : ℚ → ℚ → ℚ) (price : ℚ) (minTick : Option ℚ) : ℚ :=
  match minTick with
  | none => price
  | some t => if t = 0 then price else round price t

/-- `qty = int(quantity) if quantity is not None else
int(self.get_position_quantity(symbol))` in both upserts. -/
def resolveQty (quantity : Option Int) (posQty : Int) : Int :=
  match quantity with
  | some q => q
  | none => posQty

/-- `TradeExecutor.upsert_stop_loss(contract, stop_price, quantity)`.

`posQty` stands for `get_position_quantity(symbol)`, consulted only when no
explicit quantity is passed; `freshId` is the broker-assigned id for a newly
created order.  Returns the Python result together with the resulting book. -/
def upsertStopLoss (book : List Order) (sym : String) (minTick : Option ℚ)
    (stopPrice0 : ℚ) (quantity : Option Int) (posQty : Int) (freshId : Nat) :
    Bool × List Order :=
  if sym = "" then (false, book)
  else
    let stopPrice := roundIfTick roundDownToTick stopPrice0 minTick
    match stopTrades book sym, tpTrades book sym with
    | stop0 :: stopExtra, tp0 :: tpExtra =>
        -- modify existing stop and re-link the stop/TP pair into one OCA group
        let g := "OCA_EXIT_" ++ sym
        let newStop := { stop0 with auxPrice := stopPrice, ocaGroup := some g }
        let newTp := { tp0 with ocaGroup := some g }
        (true,
          applyBook book
            (tpExtra.map (fun t => t.orderId) ++ stopExtra.map (fun t => t.orderId))
            [newStop, newTp])
    | stop0 :: stopExtra, [] =>
        -- modify existing stop; no TP to link
        let newStop := { stop0 with auxPrice := stopPrice }
        (true, applyBook book (stopExtra.map (fun t => t.orderId)) [newStop])
    | [], tps =>
        let qty := resolveQty quantity posQty
        if qty ≤ 0 then (false, book)
        else
          let slBase : Order :=
            { orderId := freshId, symbol := sym, action := OrderAction.sell,
              orderType := OrderKind.stp, totalQuantity := qty, lmtPrice := 0,
              auxPrice := stopPrice, ocaGroup := none, parentId := 0 }
          match tps with
          | tp0 :: tpExtra =>
              let g := "OCA_EXIT_" ++ sym
              let sl := { slBase with ocaGroup := some g }
              let newTp := { tp0 with ocaGroup := some g }
              (true,
                applyBook book (tpExtra.map (fun t => t.orderId)) [newTp] ++ [sl])
          | [] => (true, book ++ [slBase])

/-- `TradeExecutor.upsert_take_profit(contract, take_profit_price, quantity)`. -/
def upsertTakeProfit (book : List Order) (sym : String) (minTick : Option ℚ)
    (tpPrice0 : ℚ) (quantity : Option Int) (posQty : Int) (freshId : Nat) :
    Bool × List Order :=
  if sym = "" then (false, book)
  else
    let tpPrice := roundIfTick roundUpToTick tpPrice0 minTick
    match tpTrades book sym, stopTrades book sym with
    | tp0 :: tpExtra, stop0 :: stopExtra =>
        let g := "OCA_EXIT_" ++ sym
        let newTp := { tp0 with lmtPrice := tpPrice, ocaGroup := some g }
        let newStop := { stop0 with ocaGroup := some g }
        (true,
          applyBook book
            (stopExtra.map (fun t => t.orderId) ++ tpExtra.map (fun t => t.orderId))
            [newTp, newStop])
    | tp0 :: tpExtra, [] =>
        let newTp := { tp0 with lmtPrice := tpPrice }
        (true, applyBook book (tpExtra.map (fun t => t.orderId)) [newTp])
    | [], stops =>
        let qty := resolveQty quantity posQty
        if qty ≤ 0 then (false, book)
        else
          let tpBase : Order :=
            { orderId := freshId, symbol := sym, action := OrderAction.sell,
              orderType := OrderKind.lmt, totalQuantity := qty,
              lmtPrice := tpPrice, auxPrice := 0, ocaGroup := none, parentId := 0 }
          match stops with
          | stop0 :: stopExtra =>
              let g := "OCA_EXIT_" ++ sym
              let tp := { tpBase with ocaGroup := some g }
              let newStop := { stop0 with ocaGroup := some g }
              (true,
                applyBook book (stopExtra.map (fun t => t.orderId)) [newStop] ++ [tp])
          | [] => (true, book ++ [tpBase])

/-- `TradeExecutor.execute_buy_order(contract, quantity, stop_loss_price,
take_profit_price)`: parent market BUY transmitted immediately, protective
children attached by `parentId` and linked in OCA group `OCA_{parent_id}`. -/
def executeBuyOrder (book : List Order) (sym : String) (quantity : Int)
    (stopLossPrice takeProfitPrice : Option ℚ) (parentId tpId slId : Nat) :
    Option (List Order) :=
  if quantity ≤ 0 then none
  else
    match stopLossPrice, takeProfitPrice with
    | none, none =>
        some (book ++
          [{ orderId := parentId, symbol := sym, action := OrderAction.buy,
             orderType := OrderKind.mkt, totalQuantity := quantity, lmtPrice := 0,
             auxPrice := 0, ocaGroup := none, parentId := 0 }])
    | _, _ =>
        let g := "OCA_" ++ toString parentId
        let parent : Order :=
          { orderId := parentId, symbol := sym, action := OrderAction.buy,
            orderType := OrderKind.mkt, totalQuantity := quantity, lmtPrice := 0,
            auxPrice := 0, ocaGroup := none, parentId := 0 }
        let tpChildren : List Order :=
          match takeProfitPrice with
          | some tpp =>
              [{ orderId := tpId, symbol := sym, action := OrderAction.sell,
                 orderType := OrderKind.lmt, totalQuantity := quantity,
                 lmtPrice := tpp, auxPrice := 0, ocaGroup := some g,
                 parentId := parentId }]
          | none => []
        let slChildren : List Order :=
          match stopLossPrice with
          | some slp =>
              [{ orderId := slId, symbol := sym, action := OrderAction.sell,
                 orderType := OrderKind.stp, totalQuantity := quantity,
                 lmtPrice := 0, auxPrice := slp, ocaGroup := some g,
                 parentId := parentId }]
          | none => []
        some (book ++ [parent] ++ tpChildren ++ slChildren)

/-- The market SELL order placed by `sell_position`. -/
def marketSellOrder (sym : String) (qty : Int) (oid : Nat) : Order :=
  { orderId := oid, symbol := sym, action := OrderAction.sell,
    orderType := OrderKind.mkt, totalQuantity := qty, lmtPrice := 0,
    auxPrice := 0, ocaGroup := none, parentId := 0 }

/-- Result of a successful `sell_position` call. -/
structure SellResult where
  soldQuantity : Int
  book : List Order
deriving DecidableEq

/-- `TradeExecutor.sell_position(contract, quantity)`.

`actualPosition` stands for `get_position_quantity(contract.symbol)`.  The
call refuses non-positive requested quantities and non-long positions, caps
the sell at the held quantity, cancels all open orders for the symbol, and
places a market SELL. -/
def sellPosition (book : List Order) (sym : String) (actualPosition : Int)
    (quantity : Int) (freshId : Nat) : Option SellResult :=
  if quantity ≤ 0 then none
  else if actualPosition ≤ 0 then none
  else
    let safeQuantity := min quantity actualPosition
    let afterCancel := book.filter (fun o => !(o.symbol == sym))
    some { soldQuantity := safeQuantity,
           book := afterCancel ++ [marketSellOrder sym safeQuantity freshId] }

/-! ## The protective-pair invariant (spec section 3, Order; section 8) -/

/-- At most one live protective stop and at most one live take-profit exist for
the symbol, and when both exist they carry the same (present) OCA group. -/
def pairInvariant (book : List Order) (sym : String) : Prop :=
  (stopTrades book sym).length ≤ 1 ∧
  (tpTrades book sym).length ≤ 1 ∧
  ∀ s ∈ stopTrades book sym, ∀ t ∈ tpTrades book sym,
    s.ocaGroup = t.ocaGroup ∧ s.ocaGroup ≠ none

/-- Broker order ids are unique across the open-order book. -/
def NoDupIds (book : List Order) : Prop :=
  (book.map Order.orderId).Nodup

theorem stopTrades_eq_filter (book : List Order) (sym : String) :
    stopTrades book sym = book.filter (isSellStop sym) := by
  simp only [stopTrades, tradesForSymbol, List.filter_filter]
  exact List.filter_congr fun o _ => by
    cases h : o.symbol == sym <;> simp [isSellStop, h]

theorem tpTrades_eq_filter (book : List Order) (sym : String) :
    tpTrades book sym = book.filter (isSellLimit sym) := by
  simp only [tpTrades, tradesForSymbol, List.filter_filter]
  exact List.filter_congr fun o _ => by
    cases h : o.symbol == sym <;> simp [isSellLimit, h]

theorem mem_book_of_mem_stopTrades {book : List Order} {sym : String} {o : Order}
    (h : o ∈ stopTrades book sym) : o ∈ book := by
  rw [stopTrades_eq_filter] at h
  exact List.mem_of_mem_filter h

theorem mem_book_of_mem_tpTrades {book : List Order} {sym : String} {o : Order}
    (h : o ∈ tpTrades book sym) : o ∈ book := by
  rw [tpTrades_eq_filter] at h
  exact List.mem_of_mem_filter h

theorem isSellStop_of_mem_stopTrades {book : List Order} {sym : String} {o : Order}
    (h : o ∈ stopTrades book sym) : isSellStop sym o = true := by
  rw [stopTrades_eq_filter] at h
  exact List.of_mem_filter h

theorem isSellLimit_of_mem_tpTrades {book : List Order} {sym : String} {o : Order}
    (h : o ∈ tpTrades book sym) : isSellLimit sym o = true := by
  rw [tpTrades_eq_filter] at h
  exact List.of_mem_filter h

theorem not_isSellStop_of_isSellLimit {sym : String} {o : Order}
    (h : isSellLimit sym o = true) : isSellStop sym o = false := by
  simp only [isSellLimit, Bool.and_eq_true, beq_iff_eq] at h
  simp [isSellStop, h.2.1]

theorem not_isSellLimit_of_isSellStop {sym : String} {o : Order}
    (h : isSellStop sym o = true) : isSellLimit sym o = false := by
  simp only [isSellStop, Bool.and_eq_true, beq_iff_eq] at h
  simp [isSellLimit, h.2.1]

theorem eq_of_mem_of_id_eq {book : List Order} (hids : NoDupIds book)
    {a b : Order} (ha : a ∈ book) (hb : b ∈ book)
    (h : a.orderId = b.orderId) : a = b :=
  List.inj_on_of_nodup_map hids ha hb h

/-- Ids of stops and take-profits are disjoint when book ids are unique. -/
theorem stop_tp_id_ne {book : List Order} {sym : String} (hids : NoDupIds book)
    {s t : Order} (hs : s ∈ stopTrades book sym) (ht : t ∈ tpTrades book sym) :
    s.orderId ≠ t.orderId := by
  intro h
  have heq : s = t :=
    eq_of_mem_of_id_eq hids (mem_book_of_mem_stopTrades hs)
      (mem_book_of_mem_tpTrades ht) h
  have h1 := isSellStop_of_mem_stopTrades hs
  have h2 := isSellLimit_of_mem_tpTrades ht
  rw [heq] at h1
  rw [not_isSellStop_of_isSellLimit h2] at h1
  exact Bool.false_ne_true h1

theorem nodupIds_sublist {book sub : List Order} (h : sub.Sublist book)
    (hids : NoDupIds book) : NoDupIds sub :=
  (h.map Order.orderId).nodup hids

theorem nodupIds_stopTrades {book : List Order} {sym : String}
    (hids : NoDupIds book) : NoDupIds (stopTrades book sym) := by
  rw [stopTrades_eq_filter]
  exact nodupIds_sublist (List.filter_sublist book) hids

theorem nodupIds_tpTrades {book : List Order} {sym : String}
    (hids : NoDupIds book) : NoDupIds (tpTrades book sym) := by
  rw [tpTrades_eq_filter]
  exact nodupIds_sublist (List.filter_sublist book) hids

theorem replOf_nil (o : Order) : replOf [] o = o := rfl

theorem replOf_head {r : Order} (rest : List Order) {o : Order}
    (h : r.orderId = o.orderId) : replOf (r :: rest) o = r := by
  simp [replOf, List.find?, h]

theorem replOf_tail {r : Order} (rest : List Order) {o : Order}
    (h : r.orderId ≠ o.orderId) : replOf (r :: rest) o = replOf rest o := by
  simp only [replOf, List.find?]
  have : (r.orderId == o.orderId) = false := by simpa using h
  rw [this]

/-- Filtering commutes with `applyBook` when every replacement preserves the
filtering predicate on the order it replaces. -/
theorem filter_applyBook (p : Order → Bool) (book : List Order)
    (cancelIds : List Nat) (repl : List Order)
    (h : ∀ o ∈ book, p (replOf repl o) = p o) :
    (applyBook book cancelIds repl).filter p
      = applyBook (book.filter p) cancelIds repl := by
  unfold applyBook
  rw [List.filter_map, List.filter_filter, List.filter_filter]
  congr 1
  refine List.filter_congr fun o ho => ?_
  simp only [Function.comp]
  rw [h o ho, Bool.and_comm]

theorem applyBook_nil (cancelIds : List Nat) (repl : List Order) :
    applyBook [] cancelIds repl = [] := rfl

/-- `applyBook` on a list whose head survives and whose tail is entirely
cancelled yields the (possibly replaced) head alone. -/
theorem applyBook_cons_of_cancel_rest {x : Order} {l : List Order}
    {cancelIds : List Nat} (repl : List Order)
    (hx : cancelIds.contains x.orderId = false)
    (hl : ∀ y ∈ l, cancelIds.contains y.orderId = true) :
    applyBook (x :: l) cancelIds repl = [replOf repl x] := by
  have hnil : l.filter (fun o => !(cancelIds.contains o.orderId)) = [] := by
    rw [List.filter_eq_nil_iff]
    intro y hy
    rw [hl y hy]
    simp
  have hx' : x.orderId ∉ cancelIds := by simpa using hx
  unfold applyBook
  rw [List.filter_cons, hnil]
  simp [hx']

/-- A filtered view of `applyBook` when the filter selects a surviving head
whose tail is fully cancelled. -/
theorem filter_applyBook_single (p : Order → Bool) (book : List Order)
    (cancelIds : List Nat) (repl : List Order) {x : Order} {rest : List Order}
    (hrepl : ∀ o ∈ book, p (replOf repl o) = p o)
    (hhead : book.filter p = x :: rest)
    (hx : cancelIds.contains x.orderId = false)
    (hrest : ∀ y ∈ rest, cancelIds.contains y.orderId = true) :
    (applyBook book cancelIds repl).filter p = [replOf repl x] := by
  rw [filter_applyBook p book cancelIds repl hrepl, hhead,
      applyBook_cons_of_cancel_rest repl hx hrest]

/-- A filtered view of `applyBook` when the filter selects nothing. -/
theorem filter_applyBook_empty (p : Order → Bool) (book : List Order)
    (cancelIds : List Nat) (repl : List Order)
    (hrepl : ∀ o ∈ book, p (replOf repl o) = p o)
    (hnil : book.filter p = []) :
    (applyBook book cancelIds repl).filter p = [] := by
  rw [filter_applyBook p book cancelIds repl hrepl, hnil, applyBook_nil]

/-- Replacing two distinct-id orders by updates that keep a predicate fixed
keeps the predicate fixed across the whole book. -/
theorem replOf_pair_pred (p : Order → Bool) {book : List Order}
    (hids : NoDupIds book) {a b na nb : Order}
    (ha : a ∈ book) (hb : b ∈ book)
    (hna : na.orderId = a.orderId) (hnb : nb.orderId = b.orderId)
    (hpa : p na = p a) (hpb : p nb = p b) :
    ∀ o ∈ book, p (replOf [na, nb] o) = p o := by
  intro o ho
  by_cases h1 : na.orderId = o.orderId
  · rw [replOf_head _ h1]
    have hoa : o = a := (eq_of_mem_of_id_eq hids ha ho (by rw [← hna, h1])).symm
    rw [hpa, hoa]
  · rw [replOf_tail _ h1]
    by_cases h2 : nb.orderId = o.orderId
    · rw [replOf_head _ h2]
      have hob : o = b := (eq_of_mem_of_id_eq hids hb ho (by rw [← hnb, h2])).symm
      rw [hpb, hob]
    · rw [replOf_tail _ h2, replOf_nil]

/-- Replacing a single order by an update that keeps a predicate fixed keeps
the predicate fixed across the whole book. -/
theorem replOf_single_pred (p : Order → Bool) {book : List Order}
    (hids : NoDupIds book) {a na : Order}
    (ha : a ∈ book) (hna : na.orderId = a.orderId) (hpa : p na = p a) :
    ∀ o ∈ book, p (replOf [na] o) = p o := by
  intro o ho
  by_cases h1 : na.orderId = o.orderId
  · rw [replOf_head _ h1]
    have hoa : o = a := (eq_of_mem_of_id_eq hids ha ho (by rw [← hna, h1])).symm
    rw [hpa, hoa]
  · rw [replOf_tail _ h1, replOf_nil]

theorem pairInvariant_of_single {b : List Order} {sym : String} {s t : Order}
    {g : String} (hs : stopTrades b sym = [s]) (ht : tpTrades b sym = [t])
    (hgs : s.ocaGroup = some g) (hgt : t.ocaGroup = some g) :
    pairInvariant b sym := by
  refine ⟨by rw [hs]; simp, by rw [ht]; simp, ?_⟩
  intro a ha c hc
  rw [hs, List.mem_singleton] at ha
  rw [ht, List.mem_singleton] at hc
  subst ha
  subst hc
  rw [hgs, hgt]
  exact ⟨rfl, by simp⟩

theorem pairInvariant_of_stop_only {b : List Order} {sym : String} {s : Order}
    (hs : stopTrades b sym = [s]) (ht : tpTrades b sym = []) :
    pairInvariant b sym := by
  refine ⟨by rw [hs]; simp, by rw [ht]; simp, ?_⟩
  intro a _ c hc
  rw [ht] at hc
  exact absurd hc (List.not_mem_nil c)

theorem pairInvariant_of_tp_only {b : List Order} {sym : String} {t : Order}
    (hs : stopTrades b sym = []) (ht : tpTrades b sym = [t]) :
    pairInvariant b sym := by
  refine ⟨by rw [hs]; simp, by rw [ht]; simp, ?_⟩
  intro a ha c _
  rw [hs] at ha
  exact absurd ha (List.not_mem_nil a)

theorem stop0_id_not_mem_extra {book : List Order} {sym : String}
    {stop0 : Order} {stopExtra : List Order} (hids : NoDupIds book)
    (hS : stopTrades book sym = stop0 :: stopExtra) :
    stop0.orderId ∉ stopExtra.map Order.orderId := by
  have h : NoDupIds (stopTrades book sym) := nodupIds_stopTrades hids
  rw [hS] at h
  simp only [NoDupIds, List.map_cons, List.nodup_cons] at h
  exact h.1

theorem tp0_id_not_mem_extra {book : List Order} {sym : String}
    {tp0 : Order} {tpExtra : List Order} (hids : NoDupIds book)
    (hT : tpTrades book sym = tp0 :: tpExtra) :
    tp0.orderId ∉ tpExtra.map Order.orderId := by
  have h : NoDupIds (tpTrades book sym) := nodupIds_tpTrades hids
  rw [hT] at h
  simp only [NoDupIds, List.map_cons, List.nodup_cons] at h
  exact h.1

theorem stop0_id_not_mem_tps {book : List Order} {sym : String}
    {stop0 : Order} {stopExtra : List Order} {tps : List Order}
    (hids : NoDupIds book)
    (hS : stopTrades book sym = stop0 :: stopExtra)
    (hsub : ∀ t ∈ tps, t ∈ tpTrades book sym) :
    stop0.orderId ∉ tps.map Order.orderId := by
  intro hmem
  rcases List.mem_map.mp hmem with ⟨t, htmem, hteq⟩
  have hsS : stop0 ∈ stopTrades book sym := by
    rw [hS]
    exact List.mem_cons_self _ _
  exact stop_tp_id_ne hids hsS (hsub t htmem) hteq.symm

theorem tp0_id_not_mem_stops {book : List Order} {sym : String}
    {tp0 : Order} {tpExtra : List Order} {stops : List Order}
    (hids : NoDupIds book)
    (hT : tpTrades book sym = tp0 :: tpExtra)
    (hsub : ∀ s ∈ stops, s ∈ stopTrades book sym) :
    tp0.orderId ∉ stops.map Order.orderId := by
  intro hmem
  rcases List.mem_map.mp hmem with ⟨s, hsmem, hseq⟩
  have htT : tp0 ∈ tpTrades book sym := by
    rw [hT]
    exact List.mem_cons_self _ _
  exact stop_tp_id_ne hids (hsub s hsmem) htT hseq

/-- Shared skeleton for the modify branches: under unique order ids, if the
replacements keep the stop/TP classification of the orders they replace, the
stop filter of the resulting book is exactly the replaced head. -/
theorem stopTrades_applyBook_head {book : List Order} {sym : String}
    {stop0 : Order} {stopExtra : List Order}
    (hS : stopTrades book sym = stop0 :: stopExtra)
    {repl : List Order}
    (hps : ∀ o ∈ book, isSellStop sym (replOf repl o) = isSellStop sym o)
    {cancels : List Nat}
    (hx : cancels.contains stop0.orderId = false)
    (hrest : ∀ y ∈ stopExtra, cancels.contains y.orderId = true) :
    stopTrades (applyBook book cancels repl) sym = [replOf repl stop0] := by
  have hhead : book.filter (isSellStop sym) = stop0 :: stopExtra := by
    rw [← stopTrades_eq_filter]
    exact hS
  rw [stopTrades_eq_filter,
    filter_applyBook_single (isSellStop sym) book cancels repl hps hhead hx hrest]

theorem tpTrades_applyBook_head {book : List Order} {sym : String}
    {tp0 : Order} {tpExtra : List Order}
    (hT : tpTrades book sym = tp0 :: tpExtra)
    {repl : List Order}
    (hpl : ∀ o ∈ book, isSellLimit sym (replOf repl o) = isSellLimit sym o)
    {cancels : List Nat}
    (hx : cancels.contains tp0.orderId = false)
    (hrest : ∀ y ∈ tpExtra, cancels.contains y.orderId = true) :
    tpTrades (applyBook book cancels repl) sym = [replOf repl tp0] := by
  have hhead : book.filter (isSellLimit sym) = tp0 :: tpExtra := by
    rw [← tpTrades_eq_filter]
    exact hT
  rw [tpTrades_eq_filter,
    filter_applyBook_single (isSellLimit sym) book cancels repl hpl hhead hx hrest]

theorem stopTrades_applyBook_empty {book : List Order} {sym : String}
    (hS : stopTrades book sym = []) {repl : List Order}
    (hps : ∀ o ∈ book, isSellStop sym (replOf repl o) = isSellStop sym o)
    (cancels : List Nat) :
    stopTrades (applyBook book cancels repl) sym = [] := by
  have hnil : book.filter (isSellStop sym) = [] := by
    rw [← stopTrades_eq_filter]
    exact hS
  rw [stopTrades_eq_filter,
    filter_applyBook_empty (isSellStop sym) book cancels repl hps hnil]

theorem tpTrades_applyBook_empty {book : List Order} {sym : String}
    (hT : tpTrades book sym = []) {repl : List Order}
    (hpl : ∀ o ∈ book, isSellLimit sym (replOf repl o) = isSellLimit sym o)
    (cancels : List Nat) :
    tpTrades (applyBook book cancels repl) sym = [] := by
  have hnil : book.filter (isSellLimit sym) = [] := by
    rw [← tpTrades_eq_filter]
    exact hT
  rw [tpTrades_eq_filter,
    filter_applyBook_empty (isSellLimit sym) book cancels repl hpl hnil]

theorem stopTrades_append_single {book : List Order} {sym : String}
    {x : Order} (hx : isSellStop sym x = true) :
    stopTrades (book ++ [x]) sym = stopTrades book sym ++ [x] := by
  rw [stopTrades_eq_filter, stopTrades_eq_filter, List.filter_append]
  simp [hx]

theorem stopTrades_append_single_skip {book : List Order} {sym : String}
    {x : Order} (hx : isSellStop sym x = false) :
    stopTrades (book ++ [x]) sym = stopTrades book sym := by
  rw [stopTrades_eq_filter, stopTrades_eq_filter, List.filter_append]
  simp [hx]

theorem tpTrades_append_single {book : List Order} {sym : String}
    {x : Order} (hx : isSellLimit sym x = true) :
    tpTrades (book ++ [x]) sym = tpTrades book sym ++ [x] := by
  rw [tpTrades_eq_filter, tpTrades_eq_filter, List.filter_append]
  simp [hx]

theorem tpTrades_append_single_skip {book : List Order} {sym : String}
    {x : Order} (hx : isSellLimit sym x = false) :
    tpTrades (book ++ [x]) sym = tpTrades book sym := by
  rw [tpTrades_eq_filter, tpTrades_eq_filter, List.filter_append]
  simp [hx]

theorem contains_eq_false_of_not_mem {l : List Nat} {n : Nat} (h : n ∉ l) :
    l.contains n = false := by
  cases hc : l.contains n
  · rfl
  · exact absurd (by simpa using hc) h

theorem contains_eq_true_of_mem {l : List Nat} {n : Nat} (h : n ∈ l) :
    l.contains n = true := by
  simp [h]

/-- `upsert_stop_loss` preserves the protective-pair invariant: it modifies
the first live stop (or creates one), cancels extras and re-links the pair
into one OCA group whenever a take-profit coexists. -/
theorem upsertStopLoss_pairInvariant (book : List Order) (sym : String)
    (minTick : Option ℚ) (stopPrice0 : ℚ) (quantity : Option Int) (posQty : Int)
    (freshId : Nat) (hids : NoDupIds book) (hinv : pairInvariant book sym) :
    pairInvariant (upsertStopLoss book sym minTick stopPrice0 quantity posQty freshId).2 sym := by
  by_cases hsym : sym = ""
  · simp only [upsertStopLoss, if_pos hsym]
    exact hinv
  rcases hS : stopTrades book sym with _ | ⟨stop0, stopExtra⟩
  · rcases hT : tpTrades book sym with _ | ⟨tp0, tpExtra⟩
    · -- no stop, no TP: create a fresh standalone stop (or refuse on qty)
      by_cases hq : resolveQty quantity posQty ≤ 0
      · simp only [upsertStopLoss, if_neg hsym, hS, hT]
        rw [if_pos hq]
        exact hinv
      · simp only [upsertStopLoss, if_neg hsym, hS, hT]
        rw [if_neg hq]
        set SL : Order :=
          { orderId := freshId, symbol := sym, action := OrderAction.sell,
            orderType := OrderKind.stp, totalQuantity := resolveQty quantity posQty,
            lmtPrice := 0, auxPrice := roundIfTick roundDownToTick stopPrice0 minTick,
            ocaGroup := none, parentId := 0 } with hSL
        have hsEq : stopTrades (book ++ [SL]) sym = [SL] := by
          rw [stopTrades_append_single (by simp [hSL, isSellStop]), hS]
          rfl
        have htEq : tpTrades (book ++ [SL]) sym = [] := by
          rw [tpTrades_append_single_skip (by simp [hSL, isSellLimit])]
          exact hT
        exact pairInvariant_of_stop_only hsEq htEq
    · -- no stop, TP exists: create a stop linked with the TP via OCA
      by_cases hq : resolveQty quantity posQty ≤ 0
      · simp only [upsertStopLoss, if_neg hsym, hS, hT]
        rw [if_pos hq]
        exact hinv
      · simp only [upsertStopLoss, if_neg hsym, hS, hT]
        rw [if_neg hq]
        have hmemT0 : tp0 ∈ tpTrades book sym := by
          rw [hT]
          exact List.mem_cons_self _ _
        have hb1 : tp0 ∈ book := mem_book_of_mem_tpTrades hmemT0
        set NT : Order := { tp0 with ocaGroup := some ("OCA_EXIT_" ++ sym) } with hNT
        set SL : Order :=
          { orderId := freshId, symbol := sym, action := OrderAction.sell,
            orderType := OrderKind.stp, totalQuantity := resolveQty quantity posQty,
            lmtPrice := 0, auxPrice := roundIfTick roundDownToTick stopPrice0 minTick,
            ocaGroup := some ("OCA_EXIT_" ++ sym), parentId := 0 } with hSL
        have hNTid : NT.orderId = tp0.orderId := rfl
        have hps : ∀ o ∈ book, isSellStop sym (replOf [NT] o) = isSellStop sym o :=
          replOf_single_pred (isSellStop sym) hids hb1 hNTid rfl
        have hpl : ∀ o ∈ book, isSellLimit sym (replOf [NT] o) = isSellLimit sym o :=
          replOf_single_pred (isSellLimit sym) hids hb1 hNTid rfl
        have hxT : (tpExtra.map (fun t => t.orderId)).contains tp0.orderId = false :=
          contains_eq_false_of_not_mem (tp0_id_not_mem_extra hids hT)
        have hrestT : ∀ y ∈ tpExtra,
            (tpExtra.map (fun t => t.orderId)).contains y.orderId = true :=
          fun y hy => contains_eq_true_of_mem (List.mem_map_of_mem _ hy)
        have htEq := tpTrades_applyBook_head hT hpl hxT hrestT
        have hrt : replOf [NT] tp0 = NT := replOf_head _ hNTid
        rw [hrt] at htEq
        have hsA := stopTrades_applyBook_empty hS hps (tpExtra.map (fun t => t.orderId))
        have hsEq : stopTrades
            (applyBook book (tpExtra.map (fun t => t.orderId)) [NT] ++ [SL]) sym = [SL] := by
          rw [stopTrades_append_single (by simp [hSL, isSellStop]), hsA]
          rfl
        have htEq2 : tpTrades
            (applyBook book (tpExtra.map (fun t => t.orderId)) [NT] ++ [SL]) sym = [NT] := by
          rw [tpTrades_append_single_skip (by simp [hSL, isSellLimit]), htEq]
        exact pairInvariant_of_single hsEq htEq2 rfl rfl
  · rcases hT : tpTrades book sym with _ | ⟨tp0, tpExtra⟩
    · -- stop exists, no TP: modify the stop price only
      simp only [upsertStopLoss, if_neg hsym, hS, hT]
      have hmemS0 : stop0 ∈ stopTrades book sym := by
        rw [hS]
        exact List.mem_cons_self _ _
      have hb0 : stop0 ∈ book := mem_book_of_mem_stopTrades hmemS0
      set NS : Order :=
        { stop0 with auxPrice := roundIfTick roundDownToTick stopPrice0 minTick } with hNS
      have hNSid : NS.orderId = stop0.orderId := rfl
      have hps : ∀ o ∈ book, isSellStop sym (replOf [NS] o) = isSellStop sym o :=
        replOf_single_pred (isSellStop sym) hids hb0 hNSid rfl
      have hpl : ∀ o ∈ book, isSellLimit sym (replOf [NS] o) = isSellLimit sym o :=
        replOf_single_pred (isSellLimit sym) hids hb0 hNSid rfl
      have hxS : (stopExtra.map (fun t => t.orderId)).contains stop0.orderId = false :=
        contains_eq_false_of_not_mem (stop0_id_not_mem_extra hids hS)
      have hrestS : ∀ y ∈ stopExtra,
          (stopExtra.map (fun t => t.orderId)).contains y.orderId = true :=
        fun y hy => contains_eq_true_of_mem (List.mem_map_of_mem _ hy)
      have hsEq := stopTrades_applyBook_head hS hps hxS hrestS
      have hrs : replOf [NS] stop0 = NS := replOf_head _ hNSid
      rw [hrs] at hsEq
      have htEq := tpTrades_applyBook_empty hT hpl (stopExtra.map (fun t => t.orderId))
      exact pairInvariant_of_stop_only hsEq htEq
    · -- both exist: modify stop, cancel extras, re-link pair into one OCA group
      simp only [upsertStopLoss, if_neg hsym, hS, hT]
      have hmemS0 : stop0 ∈ stopTrades book sym := by
        rw [hS]
        exact List.mem_cons_self _ _
      have hmemT0 : tp0 ∈ tpTrades book sym := by
        rw [hT]
        exact List.mem_cons_self _ _
      have hb0 : stop0 ∈ book := mem_book_of_mem_stopTrades hmemS0
      have hb1 : tp0 ∈ book := mem_book_of_mem_tpTrades hmemT0
      have hidne : stop0.orderId ≠ tp0.orderId := stop_tp_id_ne hids hmemS0 hmemT0
      set NS : Order :=
        { stop0 with auxPrice := roundIfTick roundDownToTick stopPrice0 minTick,
                     ocaGroup := some ("OCA_EXIT_" ++ sym) } with hNS
      set NT : Order := { tp0 with ocaGroup := some ("OCA_EXIT_" ++ sym) } with hNT
      have hNSid : NS.orderId = stop0.orderId := rfl
      have hNTid : NT.orderId = tp0.orderId := rfl
      have hNEid : NS.orderId ≠ tp0.orderId := hidne
      have hps : ∀ o ∈ book, isSellStop sym (replOf [NS, NT] o) = isSellStop sym o :=
        replOf_pair_pred (isSellStop sym) hids hb0 hb1 hNSid hNTid rfl rfl
      have hpl : ∀ o ∈ book, isSellLimit sym (replOf [NS, NT] o) = isSellLimit sym o :=
        replOf_pair_pred (isSellLimit sym) hids hb0 hb1 hNSid hNTid rfl rfl
      have hxS : (tpExtra.map (fun t => t.orderId) ++
          stopExtra.map (fun t => t.orderId)).contains stop0.orderId = false := by
        refine contains_eq_false_of_not_mem ?_
        intro hmem
        rcases List.mem_append.mp hmem with h | h
        · exact stop0_id_not_mem_tps hids hS
            (fun t ht => by rw [hT]; exact List.mem_cons_of_mem _ ht) h
        · exact stop0_id_not_mem_extra hids hS h
      have hrestS : ∀ y ∈ stopExtra, (tpExtra.map (fun t => t.orderId) ++
          stopExtra.map (fun t => t.orderId)).contains y.orderId = true :=
        fun y hy => contains_eq_true_of_mem
          (List.mem_append.mpr (Or.inr (List.mem_map_of_mem _ hy)))
      have hxT : (tpExtra.map (fun t => t.orderId) ++
          stopExtra.map (fun t => t.orderId)).contains tp0.orderId = false := by
        refine contains_eq_false_of_not_mem ?_
        intro hmem
        rcases List.mem_append.mp hmem with h | h
        · exact tp0_id_not_mem_extra hids hT h
        · exact tp0_id_not_mem_stops hids hT
            (fun s2 hs2 => by rw [hS]; exact List.mem_cons_of_mem _ hs2) h
      have hrestT : ∀ y ∈ tpExtra, (tpExtra.map (fun t => t.orderId) ++
          stopExtra.map (fun t => t.orderId)).contains y.orderId = true :=
        fun y hy => contains_eq_true_of_mem
          (List.mem_append.mpr (Or.inl (List.mem_map_of_mem _ hy)))
      have hsEq := stopTrades_applyBook_head hS hps hxS hrestS
      have htEq := tpTrades_applyBook_head hT hpl hxT hrestT
      have hrs : replOf [NS, NT] stop0 = NS := replOf_head _ hNSid
      have hrt : replOf [NS, NT] tp0 = NT := by
        rw [replOf_tail _ hNEid]
        exact replOf_head _ hNTid
      rw [hrs] at hsEq
      rw [hrt] at htEq
      exact pairInvariant_of_single hsEq htEq rfl rfl

/-- `upsert_take_profit` preserves the protective-pair invariant: it modifies
the first live take-profit (or creates one), cancels extras and re-links the
pair into one OCA group whenever a stop coexists. -/
theorem upsertTakeProfit_pairInvariant (book : List Order) (sym : String)
    (minTick : Option ℚ) (tpPrice0 : ℚ) (quantity : Option Int) (posQty : Int)
    (freshId : Nat) (hids : NoDupIds book) (hinv : pairInvariant book sym) :
    pairInvariant (upsertTakeProfit book sym minTick tpPrice0 quantity posQty freshId).2 sym := by
  by_cases hsym : sym = ""
  · simp only [upsertTakeProfit, if_pos hsym]
    exact hinv
  rcases hT : tpTrades book sym with _ | ⟨tp0, tpExtra⟩
  · rcases hS : stopTrades book sym with _ | ⟨stop0, stopExtra⟩
    · -- no TP, no stop: create a fresh standalone take-profit (or refuse)
      by_cases hq : resolveQty quantity posQty ≤ 0
      · simp only [upsertTakeProfit, if_neg hsym, hS, hT]
        rw [if_pos hq]
        exact hinv
      · simp only [upsertTakeProfit, if_neg hsym, hS, hT]
        rw [if_neg hq]
        set TPL : Order :=
          { orderId := freshId, symbol := sym, action := OrderAction.sell,
            orderType := OrderKind.lmt, totalQuantity := resolveQty quantity posQty,
            lmtPrice := roundIfTick roundUpToTick tpPrice0 minTick, auxPrice := 0,
            ocaGroup := none, parentId := 0 } with hTPL
        have htEq : tpTrades (book ++ [TPL]) sym = [TPL] := by
          rw [tpTrades_append_single (by simp [hTPL, isSellLimit]), hT]
          rfl
        have hsEq : stopTrades (book ++ [TPL]) sym = [] := by
          rw [stopTrades_append_single_skip (by simp [hTPL, isSellStop])]
          exact hS
        exact pairInvariant_of_tp_only hsEq htEq
    · -- no TP, stop exists: create a take-profit linked with the stop via OCA
      by_cases hq : resolveQty quantity posQty ≤ 0
      · simp only [upsertTakeProfit, if_neg hsym, hS, hT]
        rw [if_pos hq]
        exact hinv
      · simp only [upsertTakeProfit, if_neg hsym, hS, hT]
        rw [if_neg hq]
        have hmemS0 : stop0 ∈ stopTrades book sym := by
          rw [hS]
          exact List.mem_cons_self _ _
        have hb0 : stop0 ∈ book := mem_book_of_mem_stopTrades hmemS0
        set NS : Order := { stop0 with ocaGroup := some ("OCA_EXIT_" ++ sym) } with hNS
        set TPL : Order :=
          { orderId := freshId, symbol := sym, action := OrderAction.sell,
            orderType := OrderKind.lmt, totalQuantity := resolveQty quantity posQty,
            lmtPrice := roundIfTick roundUpToTick tpPrice0 minTick, auxPrice := 0,
            ocaGroup := some ("OCA_EXIT_" ++ sym), parentId := 0 } with hTPL
        have hNSid : NS.orderId = stop0.orderId := rfl
        have hps : ∀ o ∈ book, isSellStop sym (replOf [NS] o) = isSellStop sym o :=
          replOf_single_pred (isSellStop sym) hids hb0 hNSid rfl
        have hpl : ∀ o ∈ book, isSellLimit sym (replOf [NS] o) = isSellLimit sym o :=
          replOf_single_pred (isSellLimit sym) hids hb0 hNSid rfl
        have hxS : (stopExtra.map (fun t => t.orderId)).contains stop0.orderId = false :=
          contains_eq_false_of_not_mem (stop0_id_not_mem_extra hids hS)
        have hrestS : ∀ y ∈ stopExtra,
            (stopExtra.map (fun t => t.orderId)).contains y.orderId = true :=
          fun y hy => contains_eq_true_of_mem (List.mem_map_of_mem _ hy)
        have hsA := stopTrades_applyBook_head hS hps hxS hrestS
        have hrs : replOf [NS] stop0 = NS := replOf_head _ hNSid
        rw [hrs] at hsA
        have htA := tpTrades_applyBook_empty hT hpl (stopExtra.map (fun t => t.orderId))
        have hsEq : stopTrades
            (applyBook book (stopExtra.map (fun t => t.orderId)) [NS] ++ [TPL]) sym = [NS] := by
          rw [stopTrades_append_single_skip (by simp [hTPL, isSellStop])]
          exact hsA
        have htEq : tpTrades
            (applyBook book (stopExtra.map (fun t => t.orderId)) [NS] ++ [TPL]) sym = [TPL] := by
          rw [tpTrades_append_single (by simp [hTPL, isSellLimit]), htA]
          rfl
        exact pairInvariant_of_single hsEq htEq rfl rfl
  · rcases hS : stopTrades book sym with _ | ⟨stop0, stopExtra⟩
    · -- TP exists, no stop: modify the take-profit price only
      simp only [upsertTakeProfit, if_neg hsym, hS, hT]
      have hmemT0 : tp0 ∈ tpTrades book sym := by
        rw [hT]
        exact List.mem_cons_self _ _
      have hb1 : tp0 ∈ book := mem_book_of_mem_tpTrades hmemT0
      set NT : Order :=
        { tp0 with lmtPrice := roundIfTick roundUpToTick tpPrice0 minTick } with hNT
      have hNTid : NT.orderId = tp0.orderId := rfl
      have hps : ∀ o ∈ book, isSellStop sym (replOf [NT] o) = isSellStop sym o :=
        replOf_single_pred (isSellStop sym) hids hb1 hNTid rfl
      have hpl : ∀ o ∈ book, isSellLimit sym (replOf [NT] o) = isSellLimit sym o :=
        replOf_single_pred (isSellLimit sym) hids hb1 hNTid rfl
      have hxT : (tpExtra.map (fun t => t.orderId)).contains tp0.orderId = false :=
        contains_eq_false_of_not_mem (tp0_id_not_mem_extra hids hT)
      have hrestT : ∀ y ∈ tpExtra,
          (tpExtra.map (fun t => t.orderId)).contains y.orderId = true :=
        fun y hy => contains_eq_true_of_mem (List.mem_map_of_mem _ hy)
      have htEq := tpTrades_applyBook_head hT hpl hxT hrestT
      have hrt : replOf [NT] tp0 = NT := replOf_head _ hNTid
      rw [hrt] at htEq
      have hsEq := stopTrades_applyBook_empty hS hps (tpExtra.map (fun t => t.orderId))
      exact pairInvariant_of_tp_only hsEq htEq
    · -- both exist: modify TP, cancel extras, re-link pair into one OCA group
      simp only [upsertTakeProfit, if_neg hsym, hS, hT]
      have hmemS0 : stop0 ∈ stopTrades book sym := by
        rw [hS]
        exact List.mem_cons_self _ _
      have hmemT0 : tp0 ∈ tpTrades book sym := by
        rw [hT]
        exact List.mem_cons_self _ _
      have hb0 : stop0 ∈ book := mem_book_of_mem_stopTrades hmemS0
      have hb1 : tp0 ∈ book := mem_book_of_mem_tpTrades hmemT0
      have hidne : stop0.orderId ≠ tp0.orderId := stop_tp_id_ne hids hmemS0 hmemT0
      set NT : Order :=
        { tp0 with lmtPrice := roundIfTick roundUpToTick tpPrice0 minTick,
                   ocaGroup := some ("OCA_EXIT_" ++ sym) } with hNT
      set NS : Order := { stop0 with ocaGroup := some ("OCA_EXIT_" ++ sym) } with hNS
      have hNSid : NS.orderId = stop0.orderId := rfl
      have hNTid : NT.orderId = tp0.orderId := rfl
      have hNEid : NT.orderId ≠ stop0.orderId := fun h => hidne h.symm
      have hps : ∀ o ∈ book, isSellStop sym (replOf [NT, NS] o) = isSellStop sym o :=
        replOf_pair_pred (isSellStop sym) hids hb1 hb0 hNTid hNSid rfl rfl
      have hpl : ∀ o ∈ book, isSellLimit sym (replOf [NT, NS] o) = isSellLimit sym o :=
        replOf_pair_pred (isSellLimit sym) hids hb1 hb0 hNTid hNSid rfl rfl
      have hxS : (stopExtra.map (fun t => t.orderId) ++
          tpExtra.map (fun t => t.orderId)).contains stop0.orderId = false := by
        refine contains_eq_false_of_not_mem ?_
        intro hmem
        rcases List.mem_append.mp hmem with h | h
        · exact stop0_id_not_mem_extra hids hS h
        · exact stop0_id_not_mem_tps hids hS
            (fun t ht => by rw [hT]; exact List.mem_cons_of_mem _ ht) h
      have hrestS : ∀ y ∈ stopExtra, (stopExtra.map (fun t => t.orderId) ++
          tpExtra.map (fun t => t.orderId)).contains y.orderId = true :=
        fun y hy => contains_eq_true_of_mem
          (List.mem_append.mpr (Or.inl (List.mem_map_of_mem _ hy)))
      have hxT : (stopExtra.map (fun t => t.orderId) ++
          tpExtra.map (fun t => t.orderId)).contains tp0.orderId = false := by
        refine contains_eq_false_of_not_mem ?_
        intro hmem
        rcases List.mem_append.mp hmem with h | h
        · exact tp0_id_not_mem_stops hids hT
            (fun s2 hs2 => by rw [hS]; exact List.mem_cons_of_mem _ hs2) h
        · exact tp0_id_not_mem_extra hids hT h
      have hrestT : ∀ y ∈ tpExtra, (stopExtra.map (fun t => t.orderId) ++
          tpExtra.map (fun t => t.orderId)).contains y.orderId = true :=
        fun y hy => contains_eq_true_of_mem
          (List.mem_append.mpr (Or.inr (List.mem_map_of_mem _ hy)))
      have hsEq := stopTrades_applyBook_head hS hps hxS hrestS
      have htEq := tpTrades_applyBook_head hT hpl hxT hrestT
      have hrt : replOf [NT, NS] tp0 = NT := replOf_head _ hNTid
      have hrs : replOf [NT, NS] stop0 = NS := by
        rw [replOf_tail _ hNEid]
        exact replOf_head _ hNSid
      rw [hrs] at hsEq
      rw [hrt] at htEq
      exact pairInvariant_of_single hsEq htEq rfl rfl

/-- A bracket entry placed by `execute_buy_order` on a symbol with no live
SELL orders yields exactly one protective stop and one take-profit, linked in
the OCA group derived from the parent order id. -/
theorem executeBuyOrder_pair (book : List Order) (sym : String) (quantity : Int)
    (slp tpp : ℚ) (pid tid sid : Nat)
    (hnosell : ∀ o ∈ book, o.symbol = sym → o.action ≠ OrderAction.sell)
    (hq : 0 < quantity) (b' : List Order)
    (hb : executeBuyOrder book sym quantity (some slp) (some tpp) pid tid sid = some b') :
    pairInvariant b' sym ∧
    ∃ s t, stopTrades b' sym = [s] ∧ tpTrades b' sym = [t] ∧
      s.ocaGroup = some ("OCA_" ++ toString pid) ∧
      t.ocaGroup = some ("OCA_" ++ toString pid) := by
  have hS : stopTrades book sym = [] := by
    rw [stopTrades_eq_filter, List.filter_eq_nil_iff]
    intro o ho hp
    simp only [isSellStop, Bool.and_eq_true, beq_iff_eq] at hp
    exact hnosell o ho hp.1 hp.2.2
  have hT : tpTrades book sym = [] := by
    rw [tpTrades_eq_filter, List.filter_eq_nil_iff]
    intro o ho hp
    simp only [isSellLimit, Bool.and_eq_true, beq_iff_eq] at hp
    exact hnosell o ho hp.1 hp.2.2
  simp only [executeBuyOrder] at hb
  rw [if_neg (not_le.mpr hq)] at hb
  simp only [Option.some.injEq] at hb
  subst hb
  set PAR : Order :=
    { orderId := pid, symbol := sym, action := OrderAction.buy,
      orderType := OrderKind.mkt, totalQuantity := quantity, lmtPrice := 0,
      auxPrice := 0, ocaGroup := none, parentId := 0 } with hPAR
  set TPC : Order :=
    { orderId := tid, symbol := sym, action := OrderAction.sell,
      orderType := OrderKind.lmt, totalQuantity := quantity, lmtPrice := tpp,
      auxPrice := 0, ocaGroup := some ("OCA_" ++ toString pid),
      parentId := pid } with hTPC
  set SLC : Order :=
    { orderId := sid, symbol := sym, action := OrderAction.sell,
      orderType := OrderKind.stp, totalQuantity := quantity, lmtPrice := 0,
      auxPrice := slp, ocaGroup := some ("OCA_" ++ toString pid),
      parentId := pid } with hSLC
  have hsEq : stopTrades (book ++ [PAR] ++ [TPC] ++ [SLC]) sym = [SLC] := by
    rw [stopTrades_append_single (by simp [hSLC, isSellStop]),
      stopTrades_append_single_skip (by simp [hTPC, isSellStop]),
      stopTrades_append_single_skip (by simp [hPAR, isSellStop]), hS]
    rfl
  have htEq : tpTrades (book ++ [PAR] ++ [TPC] ++ [SLC]) sym = [TPC] := by
    rw [tpTrades_append_single_skip (by simp [hSLC, isSellLimit]),
      tpTrades_append_single (by simp [hTPC, isSellLimit]),
      tpTrades_append_single_skip (by simp [hPAR, isSellLimit]), hT]
    rfl
  exact ⟨pairInvariant_of_single hsEq htEq rfl rfl,
    SLC, TPC, hsEq, htEq, rfl, rfl⟩

/-- Claim C2: for every symbol with a long position, at most one live
protective stop (SELL STP) and at most one live take-profit (SELL LMT) exist,
and when both exist they share one OCA group; bracket entry
(`execute_buy_order`), `upsert_stop_loss` and `upsert_take_profit` all
preserve this invariant, cancelling extras and re-linking the pair into one
OCA group. -/
theorem claim_C2_protective_pair_invariant (book : List Order) (sym : String)
    (minTick : Option ℚ) (stopPrice0 tpPrice0 : ℚ) (quantity0 : Option Int)
    (posQty : Int) (freshId : Nat) (buyQty : Int) (slp tpp : ℚ)
    (pid tid sid : Nat)
    (hids : NoDupIds book) (hinv : pairInvariant book sym) :
    pairInvariant (upsertStopLoss book sym minTick stopPrice0 quantity0 posQty freshId).2 sym ∧
    pairInvariant (upsertTakeProfit book sym minTick tpPrice0 quantity0 posQty freshId).2 sym ∧
    (∀ b', (∀ o ∈ book, o.symbol = sym → o.action ≠ OrderAction.sell) →
      0 < buyQty →
      executeBuyOrder book sym buyQty (some slp) (some tpp) pid tid sid = some b' →
      pairInvariant b' sym ∧
      ∃ s t, stopTrades b' sym = [s] ∧ tpTrades b' sym = [t] ∧
        s.ocaGroup = some ("OCA_" ++ toString pid) ∧
        t.ocaGroup = some ("OCA_" ++ toString pid)) :=
  ⟨upsertStopLoss_pairInvariant book sym minTick stopPrice0 quantity0 posQty freshId hids hinv,
   upsertTakeProfit_pairInvariant book sym minTick tpPrice0 quantity0 posQty freshId hids hinv,
   fun b' hnosell hq hb =>
     executeBuyOrder_pair book sym buyQty slp tpp pid tid sid hnosell hq b' hb⟩

/-- Concrete instance of claim C2 on an empty book for the symbol AAPL. -/
theorem claim_C2_protective_pair_invariant_witness :
    pairInvariant (upsertStopLoss [] "AAPL" none 9 (some 5) 5 7).2 "AAPL" ∧
    pairInvariant (upsertTakeProfit [] "AAPL" none 12 (some 5) 5 8).2 "AAPL" ∧
    ∃ b', executeBuyOrder [] "AAPL" 10 (some 48) (some 55) 100 101 102 = some b' ∧
      pairInvariant b' "AAPL" := by
  have h := claim_C2_protective_pair_invariant [] "AAPL" none 9 12 (some 5) 5 7
    10 48 55 100 101 102 (by simp [NoDupIds])
    (by simp [pairInvariant, stopTrades, tpTrades, tradesForSymbol])
  refine ⟨h.1, ?_, ?_⟩
  · have h2 := claim_C2_protective_pair_invariant [] "AAPL" none 9 12 (some 5) 5 8
      10 48 55 100 101 102 (by simp [NoDupIds])
      (by simp [pairInvariant, stopTrades, tpTrades, tradesForSymbol])
    exact h2.2.1
  · exact ⟨_, rfl, (h.2.2 _ (by decide) (by decide) rfl).1⟩

/-! ## Position review execution (src/trading/position_manager.py) -/

/-- `TradeExecutor.get_pending_sell_orders_for_symbol`: all open SELL orders
for the symbol (MKT, LMT or STP). -/
def pendingSellOrders (book : List Order) (sym : String) : List Order :=
  (tradesForSymbol book sym).filter (fun o => o.action == OrderAction.sell)

/-- A row of the trades table as written by `record_trade`. -/
structure TradeRecord where
  symbol : String
  action : String
  quantity : Int
  price : ℚ
  sentimentScore : ℚ
  status : String
  rationale : String
deriving DecidableEq

/-- Observable effect of executing one position-review decision: the open
order book, whether per-symbol metadata survives, the trade rows written,
and the `executed`/`execution_result` fields of the review outcome. -/
structure ReviewExecState where
  book : List Order
  hasMetadata : Bool
  tradeRecords : List TradeRecord
  executed : Bool
  executionResult : Option String
deriving DecidableEq

/-- The no-effect outcome (decision refused or HOLD). -/
def noopReview (book : List Order) (hadMetadata : Bool) : ReviewExecState :=
  { book := book, hasMetadata := hadMetadata, tradeRecords := [],
    executed := false, executionResult := none }

/-- The decision-execution switch of
`PositionManager._review_single_position` (HOLD / SELL / ADJUST_STOP /
ADJUST_TP), including the duplicate-exit guard and the stop/TP price-bound
validation.

`quantity` is the reviewed position quantity; `actualPosition` is the
broker-side quantity re-checked inside `sell_position`. -/
def executeReviewDecision (book : List Order) (sym : String) (minTick : Option ℚ)
    (currentPrice : ℚ) (quantity actualPosition : Int) (freshId : Nat)
    (action : String) (newStop newTp : Option ℚ) (confidence : ℚ)
    (rationale : String) (hadMetadata : Bool) : ReviewExecState :=
  let noop := noopReview book hadMetadata
  if action = "HOLD" then noop
  else if action = "SELL" then
    if pendingSellOrders book sym ≠ [] then noop
    else
      match sellPosition book sym actualPosition quantity freshId with
      | some r =>
          let tr : TradeRecord :=
            { symbol := sym, action := "SELL", quantity := quantity,
              price := currentPrice, sentimentScore := confidence,
              status := "EXECUTED", rationale := rationale }
          { book := r.book, hasMetadata := false, tradeRecords := [tr],
            executed := true, executionResult := some "SOLD" }
      | none => noop
  else if action = "ADJUST_STOP" then
    match newStop with
    | none => noop
    | some ns =>
        if ns ≤ 0 ∨ ns ≥ currentPrice then noop
        else
          let res := upsertStopLoss book sym minTick ns (some quantity)
            actualPosition freshId
          if res.1 then
            { book := res.2, hasMetadata := hadMetadata, tradeRecords := [],
              executed := true, executionResult := some "STOP" }
          else { noop with book := res.2 }
  else if action = "ADJUST_TP" then
    match newTp with
    | none => noop
    | some nt =>
        if nt ≤ currentPrice then noop
        else
          let res := upsertTakeProfit book sym minTick nt (some quantity)
            actualPosition freshId
          if res.1 then
            { book := res.2, hasMetadata := hadMetadata, tradeRecords := [],
              executed := true, executionResult := some "TP" }
          else { noop with book := res.2 }
  else noop

/-- Claim C10: `sell_position` refuses non-positive requested quantities and
non-long positions, and otherwise sells `min(requested, held)`, so it can
never sell more than is held and cannot itself create a short position. -/
theorem claim_C10_sell_position_no_short (book : List Order) (sym : String)
    (actualPosition quantity : Int) (freshId : Nat) :
    (quantity ≤ 0 ∨ actualPosition ≤ 0 →
      sellPosition book sym actualPosition quantity freshId = none) ∧
    (∀ r, sellPosition book sym actualPosition quantity freshId = some r →
      r.soldQuantity = min quantity actualPosition ∧
      r.soldQuantity ≤ actualPosition ∧
      0 ≤ actualPosition - r.soldQuantity ∧ 0 < r.soldQuantity) := by
  constructor
  · intro h
    unfold sellPosition
    rcases h with h | h
    · rw [if_pos h]
    · by_cases hq : quantity ≤ 0
      · rw [if_pos hq]
      · rw [if_neg hq, if_pos h]
  · intro r hr
    unfold sellPosition at hr
    by_cases hq : quantity ≤ 0
    · rw [if_pos hq] at hr
      exact absurd hr (by simp)
    · rw [if_neg hq] at hr
      by_cases hp : actualPosition ≤ 0
      · rw [if_pos hp] at hr
        exact absurd hr (by simp)
      · rw [if_neg hp] at hr
        simp only [Option.some.injEq] at hr
        subst hr
        refine ⟨rfl, min_le_right _ _, ?_, ?_⟩
        · exact sub_nonneg.mpr (min_le_right _ _)
        · exact lt_min (not_le.mp hq) (not_le.mp hp)

/-- Concrete instance of claim C10: no long position refuses the sale; a
held quantity of 3 caps a requested 5. -/
theorem claim_C10_sell_position_no_short_witness :
    sellPosition [] "TSLA" 0 5 1 = none ∧
    ∃ r, sellPosition [] "TSLA" 3 5 1 = some r ∧ r.soldQuantity = 3 := by
  constructor
  · exact (claim_C10_sell_position_no_short [] "TSLA" 0 5 1).1 (Or.inr (by decide))
  · refine ⟨_, rfl, ?_⟩
    have h := ((claim_C10_sell_position_no_short [] "TSLA" 3 5 1).2 _ rfl).1
    exact h.trans (by decide)

/-- Claim C5: a position review rejects `ADJUST_STOP` (leaving every order
untouched) when `new_stop ≥ current_price` or `new_stop ≤ 0`, rejects
`ADJUST_TP` when `new_tp ≤ current_price`, and only when the bound holds
does it create-or-update the stop or take-profit via the upsert. -/
theorem claim_C5_adjust_validation (book : List Order) (sym : String)
    (minTick : Option ℚ) (currentPrice : ℚ) (quantity actualPosition : Int)
    (freshId : Nat) (ns nt : ℚ) (otherTp otherStop : Option ℚ)
    (confidence : ℚ) (rationale : String) (hadMetadata : Bool) :
    (ns ≥ currentPrice ∨ ns ≤ 0 →
      executeReviewDecision book sym minTick currentPrice quantity
          actualPosition freshId "ADJUST_STOP" (some ns) otherTp confidence
          rationale hadMetadata
        = noopReview book hadMetadata) ∧
    (nt ≤ currentPrice →
      executeReviewDecision book sym minTick currentPrice quantity
          actualPosition freshId "ADJUST_TP" otherStop (some nt) confidence
          rationale hadMetadata
        = noopReview book hadMetadata) ∧
    (0 < ns → ns < currentPrice →
      (executeReviewDecision book sym minTick currentPrice quantity
          actualPosition freshId "ADJUST_STOP" (some ns) otherTp confidence
          rationale hadMetadata).book
        = (upsertStopLoss book sym minTick ns (some quantity)
            actualPosition freshId).2) ∧
    (currentPrice < nt →
      (executeReviewDecision book sym minTick currentPrice quantity
          actualPosition freshId "ADJUST_TP" otherStop (some nt) confidence
          rationale hadMetadata).book
        = (upsertTakeProfit book sym minTick nt (some quantity)
            actualPosition freshId).2) := by
  refine ⟨?_, ?_, ?_, ?_⟩
  · intro h
    unfold executeReviewDecision
    rw [if_neg (by decide), if_neg (by decide), if_pos rfl]
    dsimp only
    rw [if_pos (Or.symm h)]
  · intro h
    unfold executeReviewDecision
    rw [if_neg (by decide), if_neg (by decide), if_neg (by decide), if_pos rfl]
    dsimp only
    rw [if_pos h]
  · intro h1 h2
    unfold executeReviewDecision
    rw [if_neg (by decide), if_neg (by decide), if_pos rfl]
    dsimp only
    rw [if_neg (by push_neg; exact ⟨h1, h2⟩)]
    split <;> rfl
  · intro h
    unfold executeReviewDecision
    rw [if_neg (by decide), if_neg (by decide), if_neg (by decide), if_pos rfl]
    dsimp only
    rw [if_neg (not_le.mpr h)]
    split <;> rfl

/-- Concrete instance of claim C5 at current price 100. -/
theorem claim_C5_adjust_validation_witness :
    executeReviewDecision [] "AMD" none 100 10 10 1 "ADJUST_STOP" (some 101)
        none 1 "r" true
      = noopReview [] true ∧
    executeReviewDecision [] "AMD" none 100 10 10 1 "ADJUST_TP" none (some 99)
        1 "r" true
      = noopReview [] true ∧
    (executeReviewDecision [] "AMD" none 100 10 10 1 "ADJUST_STOP" (some 95)
        none 1 "r" true).book
      = (upsertStopLoss [] "AMD" none 95 (some 10) 10 1).2 := by
  have h := claim_C5_adjust_validation [] "AMD" none 100 10 10 1 95 99 none
    none 1 "r" true
  have h2 := claim_C5_adjust_validation [] "AMD" none 100 10 10 1 101 99 none
    none 1 "r" true
  exact ⟨h2.1 (Or.inl (by norm_num)), h.2.1 (by norm_num),
    h.2.2.1 (by norm_num) (by norm_num)⟩

/-- Claim C6 (amended): on a SELL review decision, a pending SELL order for
the symbol makes the engine refuse (no new order, nothing recorded);
otherwise it cancels the symbol's working orders, market-sells the full
position quantity, clears the position metadata and records exactly one
trade row — whose status is "EXECUTED" (the review's execution result is
"SOLD"). -/
theorem claim_C6_sell_review_execution (book : List Order) (sym : String)
    (minTick : Option ℚ) (currentPrice : ℚ) (quantity : Int) (freshId : Nat)
    (newStop newTp : Option ℚ) (confidence : ℚ) (rationale : String)
    (hq : 0 < quantity) :
    (pendingSellOrders book sym ≠ [] →
      executeReviewDecision book sym minTick currentPrice quantity quantity
          freshId "SELL" newStop newTp confidence rationale true
        = noopReview book true) ∧
    (pendingSellOrders book sym = [] →
      executeReviewDecision book sym minTick currentPrice quantity quantity
          freshId "SELL" newStop newTp confidence rationale true
        = { book := book.filter (fun o => !(o.symbol == sym))
              ++ [marketSellOrder sym quantity freshId],
            hasMetadata := false,
            tradeRecords := [{ symbol := sym,
                               action := "SELL",
                               quantity := quantity,
                               price := currentPrice,
                               sentimentScore := confidence,
                               status := "EXECUTED",
                               rationale := rationale }],
            executed := true,
            executionResult := some "SOLD" }) := by
  constructor
  · intro h
    unfold executeReviewDecision
    rw [if_neg (by decide), if_pos rfl, if_pos h]
  · intro h
    unfold executeReviewDecision
    rw [if_neg (by decide), if_pos rfl, if_neg (fun hne => hne h)]
    have hsp : sellPosition book sym quantity quantity freshId
        = some { soldQuantity := min quantity quantity,
                 book := book.filter (fun o => !(o.symbol == sym))
                   ++ [marketSellOrder sym (min quantity quantity) freshId] } := by
      unfold sellPosition
      rw [if_neg (not_le.mpr hq), if_neg (not_le.mpr hq)]
    rw [hsp]
    dsimp only
    rw [min_self]

/-- Concrete instance of claim C6: a pending SELL limit order blocks the
exit; on a clean book the sale executes with execution result SOLD. -/
theorem claim_C6_sell_review_execution_witness :
    executeReviewDecision
        [{ orderId := 5, symbol := "MSFT", action := OrderAction.sell,
           orderType := OrderKind.lmt, totalQuantity := 10, lmtPrice := 320,
           auxPrice := 0, ocaGroup := none, parentId := 0 }]
        "MSFT" none 300 10 10 1 "SELL" none none 1 "r" true
      = noopReview
          [{ orderId := 5, symbol := "MSFT", action := OrderAction.sell,
             orderType := OrderKind.lmt, totalQuantity := 10, lmtPrice := 320,
             auxPrice := 0, ocaGroup := none, parentId := 0 }] true ∧
    (executeReviewDecision [] "MSFT" none 300 10 10 1 "SELL" none none 1 "r"
        true).executionResult = some "SOLD" := by
  have h := claim_C6_sell_review_execution
    [{ orderId := 5, symbol := "MSFT", action := OrderAction.sell,
       orderType := OrderKind.lmt, totalQuantity := 10, lmtPrice := 320,
       auxPrice := 0, ocaGroup := none, parentId := 0 }]
    "MSFT" none 300 10 1 none none 1 "r" (by decide)
  have h2 := claim_C6_sell_review_execution [] "MSFT" none 300 10 1 none none
    1 "r" (by decide)
  refine ⟨h.1 (by decide), ?_⟩
  rw [h2.2 rfl]

/-- Counterexample to claim C6 as stated: the trade row recorded by a
successful SELL review has status "EXECUTED", not "SOLD". -/
theorem claim_C6_sold_status_counterexample :
    (executeReviewDecision [] "MSFT" none 300 10 10 1 "SELL" none none 1
        "exit" true).tradeRecords.map (fun tr => tr.status) = ["EXECUTED"] ∧
    "EXECUTED" ≠ "SOLD" := by
  constructor
  · rfl
  · decide

/-! ## Account values, budgets and research gates (src/trader/runner.py,
src/trader/ibkr_account.py) -/

/-- One line of the IBKR account summary; `value` is `none` when the raw
string fails to parse as a float. -/
structure AccountValue where
  tag : String
  currency : String
  value : Option ℚ
deriving DecidableEq

/-- First entry of the list whose value parses (the `try float ... except:
continue` loops of `get_account_value`). -/
def firstParseable (l : List AccountValue) : Option ℚ :=
  l.findSome? (fun v => v.value)

/-- `get_account_value(account_values, tag, currency)` from
src/trader/ibkr_account.py: exact-currency match first, then the
BASE/empty-currency fallback, and for `TotalCashValue` a final fallback to
the currency's `CashBalance` line; with no requested currency, prefer BASE,
then USD, then GBP, then any parseable line. -/
def getAccountValue (avs : List AccountValue) (tag : String)
    (currency : Option String) : Option ℚ :=
  let ms := avs.filter (fun v => v.tag == tag)
  if ms = [] then none
  else
    match currency with
    | some cur =>
        match firstParseable (ms.filter (fun v => v.currency == cur)) with
        | some x => some x
        | none =>
            match firstParseable
                (ms.filter (fun v => v.currency == "BASE" || v.currency == "")) with
            | some x => some x
            | none =>
                if tag = "TotalCashValue" then
                  firstParseable (avs.filter
                    (fun v => v.tag == "CashBalance" && v.currency == cur))
                else none
    | none =>
        match firstParseable (ms.filter (fun v => v.currency == "BASE")) with
        | some x => some x
        | none =>
            match firstParseable (ms.filter (fun v => v.currency == "USD")) with
            | some x => some x
            | none =>
                match firstParseable (ms.filter (fun v => v.currency == "GBP")) with
                | some x => some x
                | none => firstParseable ms

/-- Per-currency cycle budget (runner.py lines 527-558): zero when the cash
tag resolves to nothing, else `max(0, min(available*maxUtil,
available-reserve))`. -/
def computeBudget (avs : List AccountValue) (cashTag : String) (maxUtil : ℚ)
    (reserve : String → ℚ) (cur : String) : ℚ :=
  match getAccountValue avs cashTag (some cur) with
  | none => 0
  | some available => max 0 (min (available * maxUtil) (available - reserve cur))

/-- Outcome of the hard trading gates applied to one researched candidate. -/
structure GateResult where
  decision : String
  reason : String
  eligible : Bool
deriving DecidableEq

/-- The per-candidate decision gates of the research loop (runner.py lines
907-949): AI SKIP, market closed, near close (intraday), already holding,
and zero remaining currency budget each reject; otherwise the candidate is
eligible for selection. -/
def researchGates (aiShortlist : Bool) (aiReason : String) (marketOpen : Bool)
    (nearClose : Bool) (intradayEnabled : Bool) (alreadyHolding : Bool)
    (budgetRemaining : ℚ) (currency : String) : GateResult :=
  if aiShortlist = false then
    { decision := "REJECTED", reason := aiReason, eligible := false }
  else if marketOpen = false then
    { decision := "REJECTED", reason := "Market closed: " ++ aiReason,
      eligible := false }
  else if intradayEnabled && nearClose then
    { decision := "REJECTED",
      reason := "Too close to market close (no new entries)", eligible := false }
  else if alreadyHolding then
    { decision := "REJECTED", reason := "Already holding a position",
      eligible := false }
  else if budgetRemaining ≤ 0 then
    { decision := "REJECTED", reason := "No available cash budget for " ++ currency,
      eligible := false }
  else
    { decision := "SHORTLISTED", reason := aiReason, eligible := true }

/-! ## Position sizing and the selection/execution loop (runner.py lines
1071-1180, executor.py calculate_position_size) -/

/-- Python float floor division `a // b` (runner line 1113); division by
zero is modelled as 0 (Python would raise, placing no order either way). -/
def pyFloorDiv (a b : ℚ) : ℤ :=
  ⌊a / b⌋

/-- `TradeExecutor.calculate_position_size(price, stop_loss_price,
net_liquidation)`: `int(net_liquidation * risk_per_trade / |price - stop|)`,
0 when the risk per share is zero. -/
def calculatePositionSize (price stopLossPrice netLiquidation riskPerTrade : ℚ) :
    ℤ :=
  let cashRisk := netLiquidation * riskPerTrade
  let riskPerShare := |price - stopLossPrice|
  if riskPerShare = 0 then 0
  else pyInt (cashRisk / riskPerShare)

/-- A shortlisted candidate as carried into the selection loop. -/
structure ExecCandidate where
  symbol : String
  currency : String
  price : ℚ
  atr : Option ℚ
  researchId : Nat
deriving DecidableEq

/-- A parent BUY order as recorded by the execution loop. -/
structure PlacedOrder where
  symbol : String
  currency : String
  quantity : ℤ
  price : ℚ
deriving DecidableEq

/-- Mutable state threaded through the selection/execution loop:
per-currency remaining budget, the `selected` symbol list, the orders
placed, and the research-decision updates written. -/
structure SelectionState where
  budgetRemaining : String → ℚ
  selected : List String
  orders : List PlacedOrder
  researchUpdates : List (Nat × String × String)

/-- Cycle-level knobs read from the effective config before the loop. -/
structure SelectionCfg where
  stopAtrMultiplier : ℚ
  takeProfitR : ℚ
  netLiq : Option ℚ
  riskPerTrade : ℚ
  maxNew : Nat

/-- Initial loop state for a cycle: budgets as computed at cycle start,
nothing selected, no orders, no updates. -/
def initSelection (budgets : String → ℚ) : SelectionState :=
  { budgetRemaining := budgets, selected := [], orders := [],
    researchUpdates := [] }

/-- One iteration of the execution loop (runner lines 1072-1173) for the
next AI-selected symbol: look the candidate up, require ATR, a positive
stop, a known net liquidation, size by risk and cap by
`floor(remainingBudget / price)`; a failed check leaves the candidate
SHORTLISTED with an explanatory reason, a pass places the parent order and
decrements the currency budget. -/
def selectionStep (cfg : SelectionCfg) (candMap : String → Option ExecCandidate)
    (st : SelectionState) (sym : String) : SelectionState :=
  match candMap sym with
  | none => st
  | some cand =>
      match cand.atr with
      | none =>
          { st with researchUpdates := st.researchUpdates ++
              [(cand.researchId, "SHORTLISTED",
                "Selected by AI but ATR missing; cannot set stop-loss")] }
      | some atr =>
          let stopLoss := cand.price - cfg.stopAtrMultiplier * atr
          if stopLoss ≤ 0 then
            { st with researchUpdates := st.researchUpdates ++
                [(cand.researchId, "SHORTLISTED",
                  "Selected by AI but stop-loss would be <= 0; skipping")] }
          else
            match cfg.netLiq with
            | none =>
                { st with researchUpdates := st.researchUpdates ++
                    [(cand.researchId, "SHORTLISTED",
                      "Selected by AI but net liquidation not available; cannot size position")] }
            | some nl =>
                let qtyRisk := calculatePositionSize cand.price stopLoss nl
                  cfg.riskPerTrade
                let maxAffordable := pyFloorDiv
                  (st.budgetRemaining cand.currency) cand.price
                let quantity := min qtyRisk maxAffordable
                if quantity ≤ 0 then
                  { st with researchUpdates := st.researchUpdates ++
                      [(cand.researchId, "SHORTLISTED",
                        "Selected by AI but insufficient " ++ cand.currency ++
                          " budget for position sizing")] }
                else
                  { budgetRemaining := Function.update st.budgetRemaining
                      cand.currency
                      (max 0 (st.budgetRemaining cand.currency -
                        quantity * cand.price)),
                    selected := st.selected ++ [cand.symbol],
                    orders := st.orders ++
                      [{ symbol := cand.symbol, currency := cand.currency,
                         quantity := quantity, price := cand.price }],
                    researchUpdates := st.researchUpdates ++
                      [(cand.researchId, "TRADE", "Order placed")] }

/-- The sequential execution loop over the AI-selection's returned symbol
order, stopping once `max_new` positions have been selected. -/
def runSelection (cfg : SelectionCfg) (candMap : String → Option ExecCandidate) :
    SelectionState → List String → SelectionState
  | st, [] => st
  | st, sym :: rest =>
      if cfg.maxNew ≤ st.selected.length then st
      else runSelection cfg candMap (selectionStep cfg candMap st sym) rest

/-- Total buy notional (quantity x price) of the recorded orders in one
currency. -/
def notionalOf (orders : List PlacedOrder) (cur : String) : ℚ :=
  ((orders.filter (fun o => o.currency == cur)).map
    (fun o => (o.quantity : ℚ) * o.price)).sum

/-- The candidate symbols of the AI-selection list, in order, that resolve
in the shortlist dictionary. -/
def symsOf (candMap : String → Option ExecCandidate) (desired : List String) :
    List String :=
  desired.filterMap (fun s => (candMap s).map (fun c => c.symbol))

theorem notionalOf_append (a b : List PlacedOrder) (cur : String) :
    notionalOf (a ++ b) cur = notionalOf a cur + notionalOf b cur := by
  simp [notionalOf, List.filter_append]

theorem notionalOf_single (o : PlacedOrder) (cur : String) :
    notionalOf [o] cur
      = if o.currency == cur then (o.quantity : ℚ) * o.price else 0 := by
  cases h : o.currency == cur <;> simp [notionalOf, h]

/-- Case analysis of one selection-loop iteration: either no order is placed
(budget and orders untouched, at most a research update appended), or the
candidate's order is appended with a positive quantity equal to the
risk-sized quantity capped by `floor(remainingBudget / price)`, and the
currency budget is decremented by the notional. -/
theorem selectionStep_cases (cfg : SelectionCfg)
    (cm : String → Option ExecCandidate) (st : SelectionState) (sym : String) :
    ((selectionStep cfg cm st sym).orders = st.orders ∧
     (selectionStep cfg cm st sym).budgetRemaining = st.budgetRemaining ∧
     (selectionStep cfg cm st sym).selected = st.selected) ∨
    (∃ cand atr nl, cm sym = some cand ∧ cand.atr = some atr ∧
       cfg.netLiq = some nl ∧
       ∃ q : ℤ,
         q = min (calculatePositionSize cand.price
             (cand.price - cfg.stopAtrMultiplier * atr) nl cfg.riskPerTrade)
           (pyFloorDiv (st.budgetRemaining cand.currency) cand.price) ∧
         0 < q ∧
         (selectionStep cfg cm st sym).orders
           = st.orders ++ [{ symbol := cand.symbol, currency := cand.currency,
                             quantity := q, price := cand.price }] ∧
         (selectionStep cfg cm st sym).budgetRemaining
           = Function.update st.budgetRemaining cand.currency
               (max 0 (st.budgetRemaining cand.currency - q * cand.price)) ∧
         (selectionStep cfg cm st sym).selected
           = st.selected ++ [cand.symbol]) := by
  unfold selectionStep
  cases hcm : cm sym with
  | none => exact Or.inl ⟨rfl, rfl, rfl⟩
  | some cand =>
    dsimp only
    cases hatr : cand.atr with
    | none => exact Or.inl ⟨rfl, rfl, rfl⟩
    | some atr =>
      dsimp only
      by_cases hstop : cand.price - cfg.stopAtrMultiplier * atr ≤ 0
      · rw [if_pos hstop]
        exact Or.inl ⟨rfl, rfl, rfl⟩
      · rw [if_neg hstop]
        cases hnl : cfg.netLiq with
        | none => exact Or.inl ⟨rfl, rfl, rfl⟩
        | some nl =>
          dsimp only
          by_cases hq : min (calculatePositionSize cand.price
              (cand.price - cfg.stopAtrMultiplier * atr) nl cfg.riskPerTrade)
            (pyFloorDiv (st.budgetRemaining cand.currency) cand.price) ≤ 0
          · rw [if_pos hq]
            exact Or.inl ⟨rfl, rfl, rfl⟩
          · rw [if_neg hq]
            exact Or.inr ⟨cand, atr, nl, rfl, hatr, rfl, _, rfl,
              not_le.mp hq, rfl, rfl, rfl⟩

/-- If a positive quantity is at most `floor(b / p)` with `b ≥ 0`, then the
price is positive and the notional `q * p` fits inside `b`. -/
theorem placed_qty_price_le {b p : ℚ} {q : ℤ} (hb : 0 ≤ b) (hq : 0 < q)
    (hle : q ≤ pyFloorDiv b p) : 0 < p ∧ (q : ℚ) * p ≤ b := by
  unfold pyFloorDiv at hle
  have h1 : (1 : ℤ) ≤ ⌊b / p⌋ := le_trans hq hle
  have h2 : (1 : ℚ) ≤ b / p := by exact_mod_cast Int.le_floor.mp h1
  have hp : 0 < p := by
    by_contra hple
    push_neg at hple
    have hdiv : b / p ≤ 0 := by
      rw [div_eq_mul_inv]
      exact mul_nonpos_iff.mpr (Or.inl ⟨hb, inv_nonpos.mpr hple⟩)
    linarith
  refine ⟨hp, ?_⟩
  have h3 : (q : ℚ) ≤ b / p := by exact_mod_cast Int.le_floor.mp hle
  calc (q : ℚ) * p ≤ b / p * p := mul_le_mul_of_nonneg_right h3 (le_of_lt hp)
  _ = b := div_mul_cancel₀ b (ne_of_gt hp)

theorem selectionStep_budget_le (cfg : SelectionCfg)
    (cm : String → Option ExecCandidate) (st : SelectionState) (sym : String)
    (h : ∀ c, 0 ≤ st.budgetRemaining c) (cur : String) :
    (selectionStep cfg cm st sym).budgetRemaining cur ≤ st.budgetRemaining cur ∧
    0 ≤ (selectionStep cfg cm st sym).budgetRemaining cur := by
  rcases selectionStep_cases cfg cm st sym with ⟨_, hb, _⟩ |
    ⟨cand, atr, nl, _, _, _, q, _, hqpos, _, hb, _⟩
  · rw [hb]
    exact ⟨le_refl _, h cur⟩
  · rw [hb]
    by_cases hc : cand.currency = cur
    · subst hc
      rw [Function.update_same]
      have hle : q ≤ pyFloorDiv (st.budgetRemaining cand.currency) cand.price := by
        calc q = _ := by assumption
        _ ≤ _ := min_le_right _ _
      have hqp := placed_qty_price_le (h cand.currency) hqpos hle
      have hpos : 0 ≤ (q : ℚ) * cand.price :=
        le_of_lt (mul_pos (by exact_mod_cast hqpos) hqp.1)
      constructor
      · exact max_le (h cand.currency) (sub_le_self _ hpos)
      · exact le_max_left _ _
    · rw [Function.update_noteq (fun hh => hc hh.symm)]
      exact ⟨le_refl _, h cur⟩

theorem selectionStep_accounting (cfg : SelectionCfg)
    (cm : String → Option ExecCandidate) (st : SelectionState) (sym : String)
    (h : ∀ c, 0 ≤ st.budgetRemaining c) (cur : String) :
    notionalOf (selectionStep cfg cm st sym).orders cur +
        (selectionStep cfg cm st sym).budgetRemaining cur
      ≤ notionalOf st.orders cur + st.budgetRemaining cur := by
  rcases selectionStep_cases cfg cm st sym with ⟨ho, hb, _⟩ |
    ⟨cand, atr, nl, _, _, _, q, hqdef, hqpos, ho, hb, _⟩
  · rw [ho, hb]
  · rw [ho, hb, notionalOf_append, notionalOf_single]
    by_cases hc : cand.currency = cur
    · subst hc
      rw [Function.update_same]
      have hle : q ≤ pyFloorDiv (st.budgetRemaining cand.currency) cand.price := by
        calc q = _ := hqdef
        _ ≤ _ := min_le_right _ _
      have hqp := placed_qty_price_le (h cand.currency) hqpos hle
      have hmax : max 0 (st.budgetRemaining cand.currency - q * cand.price)
          = st.budgetRemaining cand.currency - q * cand.price :=
        max_eq_right (sub_nonneg.mpr hqp.2)
      rw [hmax]
      simp only [beq_self_eq_true, if_true]
      ring_nf
      exact le_refl _
    · have hbeq : (cand.currency == cur) = false := by
        simp [hc]
      rw [Function.update_noteq (fun hh => hc hh.symm), hbeq]
      simp

theorem runSelection_invariant (cfg : SelectionCfg)
    (cm : String → Option ExecCandidate) :
    ∀ (desired : List String) (st : SelectionState),
      (∀ c, 0 ≤ st.budgetRemaining c) →
      (∀ c, 0 ≤ (runSelection cfg cm st desired).budgetRemaining c) ∧
      (∀ c, notionalOf (runSelection cfg cm st desired).orders c +
          (runSelection cfg cm st desired).budgetRemaining c
        ≤ notionalOf st.orders c + st.budgetRemaining c) ∧
      (∀ c, (runSelection cfg cm st desired).budgetRemaining c
        ≤ st.budgetRemaining c)
  | [], st, h => ⟨h, fun _ => le_refl _, fun _ => le_refl _⟩
  | sym :: rest, st, h => by
      unfold runSelection
      split
      · exact ⟨h, fun _ => le_refl _, fun _ => le_refl _⟩
      · have hstep := fun c => selectionStep_budget_le cfg cm st sym h c
        have hacct := fun c => selectionStep_accounting cfg cm st sym h c
        have hrec := runSelection_invariant cfg cm rest
          (selectionStep cfg cm st sym) (fun c => (hstep c).2)
        refine ⟨hrec.1, fun c => le_trans (hrec.2.1 c) (hacct c),
          fun c => le_trans (hrec.2.2 c) (hstep c).1⟩

theorem runSelection_orders_sublist (cfg : SelectionCfg)
    (cm : String → Option ExecCandidate) :
    ∀ (desired : List String) (st : SelectionState),
      ((runSelection cfg cm st desired).orders.map (fun o => o.symbol)).Sublist
        (st.orders.map (fun o => o.symbol) ++ symsOf cm desired)
  | [], st => by
      simp [runSelection, symsOf]
  | sym :: rest, st => by
      unfold runSelection
      split
      · exact List.sublist_append_left _ _
      · have hrec := runSelection_orders_sublist cfg cm rest
          (selectionStep cfg cm st sym)
        refine hrec.trans ?_
        rcases selectionStep_cases cfg cm st sym with ⟨ho, _, _⟩ |
          ⟨cand, atr, nl, hcm, _, _, q, _, _, ho, _, _⟩
        · rw [ho]
          refine List.Sublist.append_left ?_ _
          cases hcm2 : cm sym with
          | none =>
              simp [symsOf, List.filterMap_cons, hcm2]
          | some c =>
              simp only [symsOf, List.filterMap_cons, hcm2, Option.map_some]
              exact List.sublist_cons_self _ _
        · rw [ho, List.map_append, List.append_assoc]
          refine List.Sublist.append_left ?_ _
          simp [symsOf, List.filterMap_cons, hcm]

theorem selectionStep_zero_budget (cfg : SelectionCfg)
    (cm : String → Option ExecCandidate) (st : SelectionState) (sym : String)
    (cur : String) (h : st.budgetRemaining cur = 0) :
    (selectionStep cfg cm st sym).budgetRemaining cur = 0 ∧
    (selectionStep cfg cm st sym).orders.filter (fun o => o.currency == cur)
      = st.orders.filter (fun o => o.currency == cur) := by
  rcases selectionStep_cases cfg cm st sym with ⟨ho, hb, _⟩ |
    ⟨cand, atr, nl, _, _, _, q, hqdef, hqpos, ho, hb, _⟩
  · rw [ho, hb]
    exact ⟨h, rfl⟩
  · by_cases hc : cand.currency = cur
    · exfalso
      have hle : q ≤ pyFloorDiv (st.budgetRemaining cand.currency) cand.price := by
        calc q = _ := hqdef
        _ ≤ _ := min_le_right _ _
      rw [hc, h] at hle
      rw [pyFloorDiv, zero_div, Int.floor_zero] at hle
      omega
    · rw [ho, hb]
      refine ⟨?_, ?_⟩
      · rw [Function.update_noteq (fun hh => hc hh.symm)]
        exact h
      · rw [List.filter_append]
        have hbeq : (cand.currency == cur) = false := by simp [hc]
        simp [hbeq]

theorem runSelection_zero_budget (cfg : SelectionCfg)
    (cm : String → Option ExecCandidate) :
    ∀ (desired : List String) (st : SelectionState) (cur : String),
      st.budgetRemaining cur = 0 →
      (runSelection cfg cm st desired).orders.filter (fun o => o.currency == cur)
        = st.orders.filter (fun o => o.currency == cur)
  | [], _, _, _ => rfl
  | sym :: rest, st, cur, h => by
      unfold runSelection
      split
      · rfl
      · have hstep := selectionStep_zero_budget cfg cm st sym cur h
        rw [runSelection_zero_budget cfg cm rest _ cur hstep.1, hstep.2]

/-- Claim C1: within one cycle the sum of buy notional per currency never
exceeds that currency's budget computed at cycle start; each placed order's
quantity is capped by `floor(remainingBudget / price)`; the remaining budget
decreases monotonically, never below zero, as the loop walks the
AI-selection's symbol list in order (the placed symbols are a subsequence of
that list). -/
theorem claim_C1_budget_invariant (cfg : SelectionCfg)
    (candMap : String → Option ExecCandidate) (budgets : String → ℚ)
    (desired : List String) (h0 : ∀ c, 0 ≤ budgets c) :
    (∀ cur, notionalOf
        (runSelection cfg candMap (initSelection budgets) desired).orders cur
      ≤ budgets cur) ∧
    (∀ cur,
      0 ≤ (runSelection cfg candMap (initSelection budgets) desired).budgetRemaining cur ∧
      (runSelection cfg candMap (initSelection budgets) desired).budgetRemaining cur
        ≤ budgets cur) ∧
    (∀ st sym o, (∀ c, 0 ≤ st.budgetRemaining c) →
      (selectionStep cfg candMap st sym).orders = st.orders ++ [o] →
      0 < o.quantity ∧
      o.quantity ≤ pyFloorDiv (st.budgetRemaining o.currency) o.price ∧
      (o.quantity : ℚ) * o.price ≤ st.budgetRemaining o.currency ∧
      ∀ c, (selectionStep cfg candMap st sym).budgetRemaining c
        ≤ st.budgetRemaining c) ∧
    ((runSelection cfg candMap (initSelection budgets) desired).orders.map
      (fun o => o.symbol)).Sublist (symsOf candMap desired) := by
  have hinv := runSelection_invariant cfg candMap desired (initSelection budgets) h0
  have hnil : ∀ c, notionalOf (initSelection budgets).orders c = 0 := by
    intro c
    simp [initSelection, notionalOf]
  refine ⟨?_, ?_, ?_, ?_⟩
  · intro cur
    have h1 := hinv.2.1 cur
    rw [hnil cur] at h1
    have h2 := hinv.1 cur
    have h3 : (initSelection budgets).budgetRemaining cur = budgets cur := rfl
    rw [h3] at h1
    linarith
  · intro cur
    exact ⟨hinv.1 cur, hinv.2.2 cur⟩
  · intro st sym o h horders
    rcases selectionStep_cases cfg candMap st sym with ⟨ho, _, _⟩ |
      ⟨cand, atr, nl, _, _, _, q, hqdef, hqpos, ho, _, _⟩
    · exfalso
      rw [ho] at horders
      have := congrArg List.length horders
      simp at this
    · rw [ho] at horders
      have hlit := List.append_cancel_left horders
      have hoeq : o = { symbol := cand.symbol,
                         currency := cand.currency,
                         quantity := q,
                         price := cand.price } := by
        simpa using hlit.symm
      subst hoeq
      have hle : q ≤ pyFloorDiv (st.budgetRemaining cand.currency) cand.price := by
        calc q = _ := hqdef
        _ ≤ _ := min_le_right _ _
      have hqp := placed_qty_price_le (h cand.currency) hqpos hle
      exact ⟨hqpos, hle, hqp.2,
        fun c => (selectionStep_budget_le cfg candMap st sym h c).1⟩
  · have hsub := runSelection_orders_sublist cfg candMap desired
      (initSelection budgets)
    simpa [initSelection] using hsub

/-- Concrete instance of claim C1: one candidate at price 50 against a flat
10000 budget per currency. -/
theorem claim_C1_budget_invariant_witness :
    notionalOf (runSelection
        { stopAtrMultiplier := 2, takeProfitR := 1, netLiq := some 100000,
          riskPerTrade := 1/100, maxNew := 3 }
        (fun s => if s = "AAPL" then
            some { symbol := "AAPL", currency := "USD", price := 50,
                   atr := some 1, researchId := 1 }
          else none)
        (initSelection (fun _ => (10000 : ℚ))) ["AAPL"]).orders "USD"
      ≤ 10000 := by
  have h := claim_C1_budget_invariant
    { stopAtrMultiplier := 2, takeProfitR := 1, netLiq := some 100000,
      riskPerTrade := 1/100, maxNew := 3 }
    (fun s => if s = "AAPL" then
        some { symbol := "AAPL", currency := "USD", price := 50,
               atr := some 1, researchId := 1 }
      else none)
    (fun _ => (10000 : ℚ)) ["AAPL"] (fun _ => by norm_num)
  exact h.1 "USD"

/-- Claim C8: the position size is `floor(equity * riskPerTrade / |price -
stop|)`, capped in the loop by `floor(remainingBudget / price)`; the spec
scenario yields 500 shares; and a capped quantity of zero or less leaves the
candidate SHORTLISTED with the specific insufficient-budget reason instead
of silently skipping it. -/
theorem claim_C8_position_sizing (p s netLiq rpt : ℚ)
    (hs : 0 < s) (hsp : s < p) (hnn : 0 ≤ netLiq * rpt) :
    calculatePositionSize p s netLiq rpt = ⌊netLiq * rpt / (p - s)⌋ ∧
    calculatePositionSize 50 48 100000 (1/100) = 500 ∧
    (∀ (cfg : SelectionCfg) (cm : String → Option ExecCandidate) st sym cand atr nl,
      cm sym = some cand → cand.atr = some atr →
      ¬ cand.price - cfg.stopAtrMultiplier * atr ≤ 0 → cfg.netLiq = some nl →
      min (calculatePositionSize cand.price
          (cand.price - cfg.stopAtrMultiplier * atr) nl cfg.riskPerTrade)
        (pyFloorDiv (st.budgetRemaining cand.currency) cand.price) ≤ 0 →
      (selectionStep cfg cm st sym).orders = st.orders ∧
      (selectionStep cfg cm st sym).researchUpdates = st.researchUpdates ++
        [(cand.researchId, "SHORTLISTED",
          "Selected by AI but insufficient " ++ cand.currency ++
            " budget for position sizing")]) ∧
    (∀ (cfg : SelectionCfg) (cm : String → Option ExecCandidate) st sym cand atr nl,
      cm sym = some cand → cand.atr = some atr →
      ¬ cand.price - cfg.stopAtrMultiplier * atr ≤ 0 → cfg.netLiq = some nl →
      ¬ min (calculatePositionSize cand.price
          (cand.price - cfg.stopAtrMultiplier * atr) nl cfg.riskPerTrade)
        (pyFloorDiv (st.budgetRemaining cand.currency) cand.price) ≤ 0 →
      (selectionStep cfg cm st sym).orders = st.orders ++
        [{ symbol := cand.symbol, currency := cand.currency,
           quantity := min (calculatePositionSize cand.price
               (cand.price - cfg.stopAtrMultiplier * atr) nl cfg.riskPerTrade)
             (pyFloorDiv (st.budgetRemaining cand.currency) cand.price),
           price := cand.price }]) := by
  refine ⟨?_, ?_, ?_, ?_⟩
  · unfold calculatePositionSize
    have habs : |p - s| = p - s := abs_of_pos (sub_pos.mpr hsp)
    rw [habs]
    rw [if_neg (ne_of_gt (sub_pos.mpr hsp))]
    unfold pyInt
    rw [if_pos (div_nonneg hnn (le_of_lt (sub_pos.mpr hsp)))]
  · unfold calculatePositionSize pyInt
    norm_num
  · intro cfg cm st sym cand atr nl hcm hatr hstop hnl hq
    unfold selectionStep
    rw [hcm]
    dsimp only
    rw [hatr]
    dsimp only
    rw [if_neg hstop, hnl]
    dsimp only
    rw [if_pos hq]
    exact ⟨rfl, rfl⟩
  · intro cfg cm st sym cand atr nl hcm hatr hstop hnl hq
    unfold selectionStep
    rw [hcm]
    dsimp only
    rw [hatr]
    dsimp only
    rw [if_neg hstop, hnl]
    dsimp only
    rw [if_neg hq]

/-- Concrete instance of claim C8: the spec scenario equity 100000, risk
1 percent, price 50, stop 48. -/
theorem claim_C8_position_sizing_witness :
    calculatePositionSize 50 48 100000 (1/100) = ⌊(100000 : ℚ) * (1/100) / (50 - 48)⌋ ∧
    calculatePositionSize 50 48 100000 (1/100) = 500 := by
  have h := claim_C8_position_sizing 50 48 100000 (1/100)
    (by norm_num) (by norm_num) (by norm_num)
  exact ⟨h.1, h.2.1⟩

/-- Claim C7 (amended): the cycle budget of each currency equals
`max(0, min(available*maxUtilisation, available-minReserve))` with
`available` read through the configured broker cash tag; when the tag
resolves to nothing the budget is exactly zero; with a zero budget no
candidate of that currency ever becomes eligible (any gate outcome is a
rejection), a candidate that passes the AI shortlist and the market/holding
gates is rejected with the reason naming the missing cash budget, and the
execution loop places zero orders in that currency. -/
theorem claim_C7_currency_budget (avs : List AccountValue) (cashTag : String)
    (maxUtil : ℚ) (reserve : String → ℚ) (cur : String)
    (cfg : SelectionCfg) (cm : String → Option ExecCandidate)
    (budgets : String → ℚ) (desired : List String)
    (aiReason : String) (intradayEnabled : Bool) :
    (∀ a, getAccountValue avs cashTag (some cur) = some a →
      computeBudget avs cashTag maxUtil reserve cur
        = max 0 (min (a * maxUtil) (a - reserve cur))) ∧
    (getAccountValue avs cashTag (some cur) = none →
      computeBudget avs cashTag maxUtil reserve cur = 0) ∧
    (∀ b : ℚ, b ≤ 0 → ∀ aiShort marketOpen nc holding,
      (researchGates aiShort aiReason marketOpen nc intradayEnabled holding
        b cur).eligible = false) ∧
    (∀ b : ℚ, b ≤ 0 →
      researchGates true aiReason true false intradayEnabled false b cur
        = { decision := "REJECTED",
            reason := "No available cash budget for " ++ cur,
            eligible := false }) ∧
    (budgets cur = 0 →
      (runSelection cfg cm (initSelection budgets) desired).orders.filter
        (fun o => o.currency == cur) = []) := by
  refine ⟨?_, ?_, ?_, ?_, ?_⟩
  · intro a ha
    unfold computeBudget
    rw [ha]
  · intro ha
    unfold computeBudget
    rw [ha]
  · intro b hb aiShort marketOpen nc holding
    cases aiShort <;> cases marketOpen <;> cases nc <;> cases holding <;>
      cases intradayEnabled <;> unfold researchGates <;>
      first
      | rfl
      | (rw [if_pos hb]; rfl)
  · intro b hb
    unfold researchGates
    rw [if_neg (by decide), if_neg (by decide),
      if_neg (by simp), if_neg (by simp), if_pos hb]
  · intro hzero
    have h := runSelection_zero_budget cfg cm desired (initSelection budgets)
      cur hzero
    rw [h]
    rfl

/-- Concrete instance of claim C7: the cash tag has no GBP line (and no BASE
fallback), so the GBP budget is zero, the gate rejection names the missing
GBP cash budget, and no GBP order is placed. -/
theorem claim_C7_currency_budget_witness :
    computeBudget [{ tag := "AvailableFunds", currency := "USD", value := some 1000 }]
        "AvailableFunds" (1/2) (fun _ => 0) "GBP" = 0 ∧
    researchGates true "AI: SHORTLIST" true false true false 0 "GBP"
      = { decision := "REJECTED",
          reason := "No available cash budget for GBP", eligible := false } ∧
    (runSelection
        { stopAtrMultiplier := 2, takeProfitR := 1, netLiq := some 100000,
          riskPerTrade := 1/100, maxNew := 3 }
        (fun s => if s = "VOD" then
            some { symbol := "VOD", currency := "GBP", price := 100,
                   atr := some 1, researchId := 2 }
          else none)
        (initSelection (fun _ => (0 : ℚ))) ["VOD"]).orders.filter
      (fun o => o.currency == "GBP") = [] := by
  have h := claim_C7_currency_budget
    [{ tag := "AvailableFunds", currency := "USD", value := some 1000 }]
    "AvailableFunds" (1/2) (fun _ => 0) "GBP"
    { stopAtrMultiplier := 2, takeProfitR := 1, netLiq := some 100000,
      riskPerTrade := 1/100, maxNew := 3 }
    (fun s => if s = "VOD" then
        some { symbol := "VOD", currency := "GBP", price := 100,
               atr := some 1, researchId := 2 }
      else none)
    (fun _ => (0 : ℚ)) ["VOD"] "AI: SHORTLIST" true
  refine ⟨h.2.1 (by decide), ?_, h.2.2.2.2 rfl⟩
  have h4 := h.2.2.2.1 0 (le_refl 0)
  rw [h4]
  decide

/-- Counterexample to claim C7 as stated: with a zero GBP budget, a GBP
candidate the AI already skipped is rejected with the AI's reason, which
does not cite the missing cash budget. -/
theorem claim_C7_reason_counterexample :
    (researchGates false "AI (Technicals): SKIP (conf 0.20) - weak setup"
      true false true false 0 "GBP").decision = "REJECTED" ∧
    (researchGates false "AI (Technicals): SKIP (conf 0.20) - weak setup"
        true false true false 0 "GBP").reason
      ≠ "No available cash budget for GBP" := by
  exact ⟨rfl, by decide⟩

/-! ## Per-symbol timeout helper (src/trader/timeout.py) and the research
loop's record emission (runner.py lines 639-993) -/

/-- `SYMBOL_TIMEOUT_SECONDS = 45` at the top of runner.py. -/
def SYMBOL_TIMEOUT_SECONDS : ℚ := 45

/-- Result of `process_with_timeout`: the work's value when it finishes
within the timeout, else the raised SymbolTimeout. -/
inductive TimeoutResult (α : Type) where
  | ok (a : α)
  | symbolTimeout
deriving DecidableEq

/-- `process_with_timeout(func, timeout_seconds, ...)`: returns the result
when the work takes at most the timeout, raises SymbolTimeout otherwise. -/
def processWithTimeout {α : Type} (work : α)
    (durationSeconds timeoutSeconds : ℚ) : TimeoutResult α :=
  if durationSeconds ≤ timeoutSeconds then TimeoutResult.ok work
  else TimeoutResult.symbolTimeout

/-- How the per-candidate try block of the research loop ends: a completed
analysis (AI decision plus gate inputs), empty market data, or one of the
caught exception classes (SymbolTimeout, TimeoutError, ConnectionError,
anything else). -/
inductive ResearchOutcome where
  | completed (aiShortlist : Bool) (aiReason : String) (marketOpen : Bool)
      (nearClose : Bool) (alreadyHolding : Bool) (budgetRemaining : ℚ)
  | noMarketData
  | symbolTimeout (msg : String)
  | timeoutError (msg : String)
  | connectionError (msg : String)
  | otherError (excName msg : String)
deriving DecidableEq

/-- The research-log rows `(symbol, decision, reason)` written for one
candidate by the loop body: the decision defaults to REJECTED, the try
block either completes (the gates decide) or one of the except clauses
sets a failure reason, and `log_research` runs exactly once after the
try/except whatever happened. -/
def candidateResearchRecords (sym exchange currency : String)
    (intradayEnabled : Bool) (outc : ResearchOutcome) :
    List (String × String × String) :=
  let dr : String × String :=
    match outc with
    | ResearchOutcome.completed aiS aiR mo ncl hold budget =>
        let g := researchGates aiS aiR mo ncl intradayEnabled hold budget currency
        (g.decision, g.reason)
    | ResearchOutcome.noMarketData => ("REJECTED", "No market data")
    | ResearchOutcome.symbolTimeout msg =>
        ("REJECTED", "Symbol processing timed out: " ++ msg)
    | ResearchOutcome.timeoutError msg =>
        ("REJECTED", "Timeout during analysis: " ++ msg)
    | ResearchOutcome.connectionError msg =>
        ("REJECTED", "Connection error: " ++ msg)
    | ResearchOutcome.otherError n msg =>
        ("REJECTED", "Error during analysis: " ++ n ++ ": " ++ msg)
  [(sym, dr.1, dr.2)]

/-- The research loop over the (deduplicated) candidate universe, collecting
every research-log row written during the cycle. -/
def researchLoopRecords (intradayEnabled : Bool)
    (candidates : List (String × String × String))
    (outcomes : String → ResearchOutcome) : List (String × String × String) :=
  match candidates with
  | [] => []
  | c :: rest =>
      candidateResearchRecords c.1 c.2.1 c.2.2 intradayEnabled (outcomes c.1)
        ++ researchLoopRecords intradayEnabled rest outcomes

/-- The records the runner actually writes for a candidate whose research
work runs for `durationSeconds`: `process_with_timeout` is imported but
never called in runner.py, so the loop body never consults the elapsed
time and the SymbolTimeout handler is unreachable. -/
def runnerResearchRecords (sym exchange currency : String)
    (intradayEnabled : Bool) (durationSeconds : ℚ) (outc : ResearchOutcome) :
    List (String × String × String) :=
  candidateResearchRecords sym exchange currency intradayEnabled outc

/-- Modelled from the spec: "for each candidate, research with a hard
per-symbol timeout (default 45s)" — what the loop would write if the
per-candidate work were wrapped in `process_with_timeout` with
`SYMBOL_TIMEOUT_SECONDS`, as the import and the dead SymbolTimeout handler
in runner.py indicate was intended. -/
def specTimeoutResearchRecords (sym exchange currency : String)
    (intradayEnabled : Bool) (durationSeconds : ℚ) (outc : ResearchOutcome) :
    List (String × String × String) :=
  match processWithTimeout outc durationSeconds SYMBOL_TIMEOUT_SECONDS with
  | TimeoutResult.ok o =>
      candidateResearchRecords sym exchange currency intradayEnabled o
  | TimeoutResult.symbolTimeout =>
      candidateResearchRecords sym exchange currency intradayEnabled
        (ResearchOutcome.symbolTimeout "Processing timed out after 45s")

/-- Claim C3 (code bug): the research loop applies no per-symbol timeout.
The runner's records are independent of how long the work ran; at 1000
seconds the timeout helper would raise SymbolTimeout and the spec-modelled
loop would reject the candidate with a timeout reason, but the code records
the AI decision as if nothing happened. -/
theorem claim_C3_timeout_never_applied :
    (∀ sym exch cur ie d1 d2 outc,
      runnerResearchRecords sym exch cur ie d1 outc
        = runnerResearchRecords sym exch cur ie d2 outc) ∧
    processWithTimeout
        (ResearchOutcome.completed true "AI: SHORTLIST" true false false 100)
        1000 SYMBOL_TIMEOUT_SECONDS
      = TimeoutResult.symbolTimeout ∧
    runnerResearchRecords "AAPL" "SMART" "USD" true 1000
        (ResearchOutcome.completed true "AI: SHORTLIST" true false false 100)
      = [("AAPL", "SHORTLISTED", "AI: SHORTLIST")] ∧
    specTimeoutResearchRecords "AAPL" "SMART" "USD" true 1000
        (ResearchOutcome.completed true "AI: SHORTLIST" true false false 100)
      = [("AAPL", "REJECTED",
          "Symbol processing timed out: Processing timed out after 45s")] ∧
    ([("AAPL", "SHORTLISTED", "AI: SHORTLIST")] :
        List (String × String × String))
      ≠ [("AAPL", "REJECTED",
          "Symbol processing timed out: Processing timed out after 45s")] := by
  refine ⟨fun _ _ _ _ _ _ _ => rfl, ?_, ?_, ?_, ?_⟩
  · decide
  · decide
  · decide
  · decide

/-- Claim C4: every candidate processed in a cycle produces exactly one
persisted research record, in loop order, and on timeout or exception the
decision is REJECTED with a reason describing the failure. -/
theorem claim_C4_exactly_one_research_record (intradayEnabled : Bool)
    (candidates : List (String × String × String))
    (outcomes : String → ResearchOutcome) :
    (researchLoopRecords intradayEnabled candidates outcomes).map
        (fun r => r.1)
      = candidates.map (fun c => c.1) ∧
    (∀ sym exch cur outc,
      (candidateResearchRecords sym exch cur intradayEnabled outc).length = 1) ∧
    (∀ sym exch cur msg n,
      candidateResearchRecords sym exch cur intradayEnabled
          (ResearchOutcome.symbolTimeout msg)
        = [(sym, "REJECTED", "Symbol processing timed out: " ++ msg)] ∧
      candidateResearchRecords sym exch cur intradayEnabled
          (ResearchOutcome.timeoutError msg)
        = [(sym, "REJECTED", "Timeout during analysis: " ++ msg)] ∧
      candidateResearchRecords sym exch cur intradayEnabled
          (ResearchOutcome.connectionError msg)
        = [(sym, "REJECTED", "Connection error: " ++ msg)] ∧
      candidateResearchRecords sym exch cur intradayEnabled
          (ResearchOutcome.otherError n msg)
        = [(sym, "REJECTED", "Error during analysis: " ++ n ++ ": " ++ msg)] ∧
      candidateResearchRecords sym exch cur intradayEnabled
          ResearchOutcome.noMarketData
        = [(sym, "REJECTED", "No market data")]) := by
  refine ⟨?_, fun _ _ _ _ => rfl,
    fun _ _ _ _ _ => ⟨rfl, rfl, rfl, rfl, rfl⟩⟩
  induction candidates with
  | nil => rfl
  | cons c rest ih =>
      simp only [researchLoopRecords, candidateResearchRecords,
        List.map_append, List.map_cons, List.map_nil]
      rw [ih]
      rfl

/-! ## Runtime config overlay (src/utils/runtime_config.py) -/

mutual
inductive JVal where
  | str (s : String)
  | num (q : ℚ)
  | intv (n : ℤ)
  | boolv (b : Bool)
  | null
  | arr (a : JArr)
  | obj (o : JObj)
inductive JArr where
  | nil
  | cons (v : JVal) (rest : JArr)
inductive JObj where
  | nil
  | cons (k : String) (v : JVal) (rest : JObj)
end

/-- Dotted path concatenation of `_flatten_overrides`. -/
def joinPath (pre k : String) : String :=
  if pre = "" then k else pre ++ "." ++ k

mutual
/-- `_flatten_overrides`: walk the nested override map in insertion order,
emitting dotted paths; object values recurse except for the map-valued key
`trading.min_cash_reserve_by_currency`, which is kept as a single value. -/
def flattenOverrides (pre : String) : JObj → List (String × JVal)
  | JObj.nil => []
  | JObj.cons k v rest => flattenEntry pre k v ++ flattenOverrides pre rest
def flattenEntry (pre k : String) (v : JVal) : List (String × JVal) :=
  match v with
  | JVal.obj fields =>
      if joinPath pre k = "trading.min_cash_reserve_by_currency" then
        [(joinPath pre k, JVal.obj fields)]
      else flattenOverrides (joinPath pre k) fields
  | v => [(joinPath pre k, v)]
end

/-- `_is_number` plus float coercion: a JSON number that is not a bool. -/
def numValue : JVal → Option ℚ
  | JVal.num q => some q
  | JVal.intv n => some (n : ℚ)
  | _ => none

def jarrToList : JArr → List JVal
  | JArr.nil => []
  | JArr.cons v rest => v :: jarrToList rest

/-- `_validate_float_0_1`. -/
def validateFloat01 (v : JVal) (nm : String) : Except String Unit :=
  match numValue v with
  | none => Except.error (nm ++ " must be a number")
  | some q =>
      if q < 0 ∨ 1 < q then Except.error (nm ++ " must be between 0 and 1")
      else Except.ok ()

/-- `_validate_bool`. -/
def validateBool (v : JVal) (nm : String) : Except String Unit :=
  match v with
  | JVal.boolv _ => Except.ok ()
  | _ => Except.error (nm ++ " must be boolean")

/-- `_validate_positive_number`. -/
def validatePositiveNumber (v : JVal) (nm : String) : Except String Unit :=
  match numValue v with
  | none => Except.error (nm ++ " must be a number")
  | some q => if q ≤ 0 then Except.error (nm ++ " must be > 0") else Except.ok ()

/-- `_validate_non_negative_int`. -/
def validateNonNegativeInt (v : JVal) (nm : String) : Except String Unit :=
  match v with
  | JVal.intv n =>
      if n < 0 then Except.error (nm ++ " must be >= 0") else Except.ok ()
  | _ => Except.error (nm ++ " must be an integer")

/-- `_validate_positive_int`. -/
def validatePositiveInt (v : JVal) (nm : String) : Except String Unit :=
  match v with
  | JVal.intv n =>
      if n < 0 then Except.error (nm ++ " must be >= 0")
      else if n ≤ 0 then Except.error (nm ++ " must be > 0")
      else Except.ok ()
  | _ => Except.error (nm ++ " must be an integer")

/-- `.strip()`, written structurally over the character list so that it
evaluates on literals. -/
def strTrim (s : String) : String :=
  String.mk
    (((s.data.dropWhile Char.isWhitespace).reverse.dropWhile
        Char.isWhitespace).reverse)

/-- `_validate_string_list`. -/
def validateStringList (v : JVal) (nm : String) (maxItems : Nat) :
    Except String Unit :=
  match v with
  | JVal.arr a =>
      let items := jarrToList a
      if maxItems < items.length then
        Except.error (nm ++ " must have at most " ++ toString maxItems ++ " entries")
      else if items.all (fun it =>
          match it with
          | JVal.str s => !(strTrim s == "")
          | _ => false) then Except.ok ()
      else Except.error (nm ++ " entries must be non-empty strings")
  | _ => Except.error (nm ++ " must be an array")

/-- The entry loop of `_validate_markets`. -/
def validateMarketEntries : List JVal → Except String Unit
  | [] => Except.ok ()
  | JVal.str s :: rest =>
      if strTrim s = "" then
        Except.error "trading.markets entries must be non-empty strings"
      else if (strTrim s).toUpper = "US" ∨ (strTrim s).toUpper = "UK" then
        validateMarketEntries rest
      else Except.error ("Unsupported market: " ++ (strTrim s).toUpper)
  | _ :: _ => Except.error "trading.markets entries must be non-empty strings"

/-- `_validate_markets`. -/
def validateMarkets (v : JVal) : Except String Unit :=
  match v with
  | JVal.arr a =>
      match jarrToList a with
      | [] => Except.error "trading.markets must be a non-empty array"
      | items => validateMarketEntries items
  | _ => Except.error "trading.markets must be a non-empty array"

/-- The entry loop of `_validate_min_cash_reserve`. -/
def validateReserveEntries : JObj → Except String Unit
  | JObj.nil => Except.ok ()
  | JObj.cons k val rest =>
      if strTrim k = "" then Except.error "Currency codes must be non-empty strings"
      else
        match numValue val with
        | none => Except.error ("Reserve for " ++ k ++ " must be a number")
        | some q =>
            if q < 0 then Except.error ("Reserve for " ++ k ++ " must be >= 0")
            else validateReserveEntries rest

/-- `_validate_min_cash_reserve`. -/
def validateMinCashReserve (v : JVal) : Except String Unit :=
  match v with
  | JVal.obj o => validateReserveEntries o
  | _ => Except.error "trading.min_cash_reserve_by_currency must be an object"

/-- `_validate_prompt_override`. -/
def validatePromptOverride (v : JVal) (nm : String) : Except String Unit :=
  match v with
  | JVal.str s =>
      if 20000 < s.length then
        Except.error (nm ++ " is too long (max 20000 characters)")
      else Except.ok ()
  | _ => Except.error (nm ++ " must be a string")

/-- The truthy non-empty-string lambdas of the allow-list. -/
def validateNonEmptyString (v : JVal) (msg : String) : Except String Unit :=
  match v with
  | JVal.str s => if strTrim s = "" then Except.error msg else Except.ok ()
  | _ => Except.error msg

/-- The `trading.volatility_threshold` lambda. -/
def validateVolThreshold (v : JVal) : Except String Unit :=
  match numValue v with
  | some q =>
      if 0 ≤ q then Except.ok ()
      else Except.error "trading.volatility_threshold must be >= 0"
  | none => Except.error "trading.volatility_threshold must be >= 0"

/-- The fixed allow-list `_ALLOWED_OVERRIDE_VALIDATORS`: each permitted
path with its validator; any other path is unknown. -/
def allowedValidator (path : String) : Option (JVal → Except String Unit) :=
  if path = "trading.max_cash_utilisation" then
    some (fun v => validateFloat01 v "trading.max_cash_utilisation")
  else if path = "trading.risk_per_trade" then
    some (fun v => validateFloat01 v "trading.risk_per_trade")
  else if path = "trading.max_positions" then
    some (fun v => validateNonNegativeInt v "trading.max_positions")
  else if path = "trading.max_new_positions_per_cycle" then
    some (fun v => validateNonNegativeInt v "trading.max_new_positions_per_cycle")
  else if path = "trading.cash_budget_tag" then
    some (fun v => validateNonEmptyString v
      "trading.cash_budget_tag must be a non-empty string")
  else if path = "trading.markets" then some validateMarkets
  else if path = "trading.min_cash_reserve_by_currency" then
    some validateMinCashReserve
  else if path = "trading.max_share_price" then
    some (fun v => validatePositiveNumber v "trading.max_share_price")
  else if path = "trading.min_share_price" then
    some (fun v => validatePositiveNumber v "trading.min_share_price")
  else if path = "trading.min_avg_volume" then
    some (fun v => validateNonNegativeInt v "trading.min_avg_volume")
  else if path = "trading.exclude_microcap" then
    some (fun v => validateBool v "trading.exclude_microcap")
  else if path = "trading.screener.max_candidates" then
    some (fun v => validatePositiveInt v "trading.screener.max_candidates")
  else if path = "trading.screener.scan_codes" then
    some (fun v => validateStringList v "trading.screener.scan_codes" 20)
  else if path = "trading.screener.include_reddit_symbols" then
    some (fun v => validateBool v "trading.screener.include_reddit_symbols")
  else if path = "trading.screener.include_symbols" then
    some (fun v => validateStringList v "trading.screener.include_symbols" 500)
  else if path = "trading.screener.exclude_symbols" then
    some (fun v => validateStringList v "trading.screener.exclude_symbols" 500)
  else if path = "trading.volatility_threshold" then some validateVolThreshold
  else if path = "ai.model" then
    some (fun v => validateNonEmptyString v "ai.model must be a non-empty string")
  else if path = "ai.shortlist_system_prompt" then
    some (fun v => validatePromptOverride v "ai.shortlist_system_prompt")
  else if path = "ai.buy_selection_system_prompt" then
    some (fun v => validatePromptOverride v "ai.buy_selection_system_prompt")
  else if path = "ai.position_review_system_prompt" then
    some (fun v => validatePromptOverride v "ai.position_review_system_prompt")
  else if path = "ai.order_review_system_prompt" then
    some (fun v => validatePromptOverride v "ai.order_review_system_prompt")
  else if path = "ai.trade_decision_system_prompt" then
    some (fun v => validatePromptOverride v "ai.trade_decision_system_prompt")
  else if path = "ai.trade_decision_prompt_addendum" then
    some (fun v => validatePromptOverride v "ai.trade_decision_prompt_addendum")
  else if path = "ai.buy_selection_prompt_addendum" then
    some (fun v => validatePromptOverride v "ai.buy_selection_prompt_addendum")
  else if path = "ai.position_review_prompt_addendum" then
    some (fun v => validatePromptOverride v "ai.position_review_prompt_addendum")
  else if path = "ai.order_review_prompt_addendum" then
    some (fun v => validatePromptOverride v "ai.order_review_prompt_addendum")
  else if path = "ai.sentiment_threshold" then
    some (fun v => validateFloat01 v "ai.sentiment_threshold")
  else if path = "intraday.enabled" then
    some (fun v => validateBool v "intraday.enabled")
  else if path = "intraday.cycle_interval_seconds" then
    some (fun v => validateNonNegativeInt v "intraday.cycle_interval_seconds")
  else if path = "intraday.cycle_interval_seconds_closed" then
    some (fun v => validateNonNegativeInt v "intraday.cycle_interval_seconds_closed")
  else if path = "intraday.flatten_minutes_before_close" then
    some (fun v => validateNonNegativeInt v "intraday.flatten_minutes_before_close")
  else if path = "reddit.enabled" then
    some (fun v => validateBool v "reddit.enabled")
  else none

/-- The loop of `_validate_override_dict` over the flattened items: an
unknown path raises naming it, a known path runs its validator; the first
failure wins. -/
def validateFlattened : List (String × JVal) → Except String Unit
  | [] => Except.ok ()
  | (path, v) :: rest =>
      match allowedValidator path with
      | none => Except.error ("Unsupported override key: " ++ path)
      | some f =>
          match f v with
          | Except.error e => Except.error e
          | Except.ok _ => validateFlattened rest

/-- `_validate_override_dict`. -/
def validateOverrideDict (overrides : JObj) : Except String Unit :=
  validateFlattened (flattenOverrides "" overrides)

/-- One named strategy of the runtime-config document. -/
structure StrategyDoc where
  name : String
  overrides : JObj

/-- The (normalised) runtime-config document. -/
structure RuntimeDoc where
  schemaVersion : ℤ
  overrides : JObj
  strategies : List StrategyDoc
  activeStrategy : Option String

/-- The strategy loop of `validate_runtime_config`: non-empty unique names,
each strategy's overrides validated in turn. -/
def validateStrategies : List StrategyDoc → List String → Except String Unit
  | [], _ => Except.ok ()
  | s :: rest, seen =>
      if strTrim s.name = "" then
        Except.error "Strategy name must be a non-empty string"
      else if seen.contains (strTrim s.name) then
        Except.error ("Duplicate strategy name: " ++ strTrim s.name)
      else
        match validateOverrideDict s.overrides with
        | Except.error e => Except.error e
        | Except.ok _ => validateStrategies rest (seen ++ [strTrim s.name])

def strategyNames (strategies : List StrategyDoc) : List String :=
  strategies.map (fun s => strTrim s.name)

/-- `validate_runtime_config` on a normalised document. -/
def validateRuntimeConfig (doc : RuntimeDoc) : Except String Unit :=
  if doc.schemaVersion ≠ 1 then
    Except.error ("Unsupported runtime config schema_version: " ++
      toString doc.schemaVersion)
  else
    match doc.strategies with
    | [] => Except.error "runtime.strategies must be a non-empty array"
    | _ =>
        match validateStrategies doc.strategies [] with
        | Except.error e => Except.error e
        | Except.ok _ =>
            match doc.activeStrategy with
            | some active =>
                if strTrim active = "" then
                  Except.error "active_strategy must be a non-empty string or null"
                else if !(strategyNames doc.strategies).contains (strTrim active) then
                  Except.error ("active_strategy not found in strategies: " ++
                    strTrim active)
                else validateOverrideDict doc.overrides
            | none => validateOverrideDict doc.overrides

def jobjGet : JObj → String → Option JVal
  | JObj.nil, _ => none
  | JObj.cons k v rest, key => if k = key then some v else jobjGet rest key

def jobjSet : JObj → String → JVal → JObj
  | JObj.nil, key, v => JObj.cons key v JObj.nil
  | JObj.cons k v0 rest, key, v =>
      if k = key then JObj.cons k v rest
      else JObj.cons k v0 (jobjSet rest key v)

mutual
def jvalSize : JVal → Nat
  | JVal.obj o => 1 + jobjSize o
  | JVal.arr a => 1 + jarrSize a
  | _ => 1
def jarrSize : JArr → Nat
  | JArr.nil => 1
  | JArr.cons v rest => 1 + jvalSize v + jarrSize rest
def jobjSize : JObj → Nat
  | JObj.nil => 1
  | JObj.cons _ v rest => 1 + jvalSize v + jobjSize rest
end

/-- `deep_merge(base, patch)`: patch keys override, object values merge
recursively. -/
def deepMerge (base patch : JObj) : JObj :=
  match patch with
  | JObj.nil => base
  | JObj.cons k v rest =>
      let base2 :=
        match v, jobjGet base k with
        | JVal.obj pv, some (JVal.obj bv) => jobjSet base k (JVal.obj (deepMerge bv pv))
        | _, _ => jobjSet base k v
      deepMerge base2 rest
termination_by jobjSize patch
decreasing_by
  all_goals simp [jobjSize, jvalSize]
  all_goals omega

def findStrategy (strategies : List StrategyDoc) (nm : String) :
    Option StrategyDoc :=
  strategies.find? (fun s => s.name == nm)

/-- `apply_runtime_config` after a successful validation: base, then global
overrides, then the active strategy's overrides. -/
def applyRuntimeConfig (baseConfig : JObj) (doc : RuntimeDoc) : JObj :=
  let cfg := deepMerge baseConfig doc.overrides
  match doc.activeStrategy with
  | some active =>
      if active = "" then cfg
      else
        match findStrategy doc.strategies active with
        | some s => deepMerge cfg s.overrides
        | none => cfg
  | none => cfg

/-- Observable outcome of the top-of-cycle runtime-config step. -/
structure CycleConfigOutcome where
  config : JObj
  paused : Bool
  sleptSeconds : Nat

/-- Runner lines 146-159: a validation error logs, marks live status paused,
sleeps one cycle interval and restarts with the previous effective config
untouched; success recomputes the effective config from the base. -/
def cycleConfigStep (baseConfig prevConfig : JObj) (doc : RuntimeDoc)
    (cycleIntervalSeconds : Nat) : CycleConfigOutcome :=
  match validateRuntimeConfig doc with
  | Except.error _ =>
      { config := prevConfig, paused := true,
        sleptSeconds := cycleIntervalSeconds }
  | Except.ok _ =>
      { config := applyRuntimeConfig baseConfig doc, paused := false,
        sleptSeconds := 0 }

/-- An unknown path anywhere in the flattened items makes validation fail
(with the first-reported error, whatever it is). -/
theorem validateFlattened_error_of_unknown :
    ∀ (l : List (String × JVal)) (p : String) (v : JVal),
      (p, v) ∈ l → allowedValidator p = none →
      ∃ msg, validateFlattened l = Except.error msg
  | [], _, _, hm, _ => absurd hm (List.not_mem_nil _)
  | (q, w) :: rest, p, v, hm, hu => by
      unfold validateFlattened
      cases hq : allowedValidator q with
      | none => exact ⟨_, rfl⟩
      | some f =>
          dsimp only
          cases hf : f w with
          | error e => exact ⟨e, rfl⟩
          | ok u =>
              dsimp only
              rcases List.mem_cons.mp hm with heq | hm2
              · exfalso
                cases heq
                rw [hu] at hq
                exact Option.noConfusion hq
              · exact validateFlattened_error_of_unknown rest p v hm2 hu

/-- When every item before the unknown path validates cleanly, the raised
error names that exact path. -/
theorem validateFlattened_first_unknown :
    ∀ (pre : List (String × JVal)) (p : String) (v : JVal)
      (rest : List (String × JVal)),
      (∀ q w, (q, w) ∈ pre →
        ∃ f, allowedValidator q = some f ∧ f w = Except.ok ()) →
      allowedValidator p = none →
      validateFlattened (pre ++ (p, v) :: rest)
        = Except.error ("Unsupported override key: " ++ p)
  | [], p, v, rest, _, hu => by
      rw [List.nil_append]
      unfold validateFlattened
      rw [hu]
  | (q, w) :: pre, p, v, rest, hok, hu => by
      obtain ⟨f, hf, hfw⟩ := hok q w (List.mem_cons_self _ _)
      rw [List.cons_append]
      unfold validateFlattened
      rw [hf]
      dsimp only
      rw [hfw]
      exact validateFlattened_first_unknown pre p v rest
        (fun q2 w2 hm => hok q2 w2 (List.mem_cons_of_mem _ hm)) hu

/-- Claim C9 (amended): an override path outside the fixed allow-list makes
`validate()` fail; the raised error names that exact path whenever the
items flattened before it are themselves valid (in particular when it is
the only problem in the document); and when validation fails at the top of
a cycle the scheduler pauses, sleeps the cycle interval and keeps the
previous effective config — no part of the override document is applied. -/
theorem claim_C9_runtime_config_validation
    (o : JObj) (p : String) (v : JVal)
    (pre rest : List (String × JVal))
    (baseConfig prevConfig : JObj) (doc : RuntimeDoc) (interval : Nat) :
    ((p, v) ∈ flattenOverrides "" o → allowedValidator p = none →
      ∃ msg, validateOverrideDict o = Except.error msg) ∧
    ((∀ q w, (q, w) ∈ pre →
        ∃ f, allowedValidator q = some f ∧ f w = Except.ok ()) →
      allowedValidator p = none →
      validateFlattened (pre ++ (p, v) :: rest)
        = Except.error ("Unsupported override key: " ++ p)) ∧
    (∀ msg, validateRuntimeConfig doc = Except.error msg →
      cycleConfigStep baseConfig prevConfig doc interval
        = { config := prevConfig, paused := true,
            sleptSeconds := interval }) ∧
    (validateRuntimeConfig doc = Except.ok () →
      cycleConfigStep baseConfig prevConfig doc interval
        = { config := applyRuntimeConfig baseConfig doc, paused := false,
            sleptSeconds := 0 }) := by
  refine ⟨?_, validateFlattened_first_unknown pre p v rest, ?_, ?_⟩
  · intro hm hu
    exact validateFlattened_error_of_unknown _ p v hm hu
  · intro msg h
    unfold cycleConfigStep
    rw [h]
  · intro h
    unfold cycleConfigStep
    rw [h]

/-- A runtime-config document whose only problem is the unknown override
key trading.zzz. -/
def zzzOverrides : JObj :=
  JObj.cons "trading" (JVal.obj (JObj.cons "zzz" (JVal.intv 1) JObj.nil))
    JObj.nil

def zzzDoc : RuntimeDoc :=
  { schemaVersion := 1, overrides := zzzOverrides,
    strategies := [{ name := "Default", overrides := JObj.nil }],
    activeStrategy := some "Default" }

/-- Concrete instance of claim C9: the unknown key trading.zzz is named in
the error, and the cycle pauses on the previous config. -/
theorem claim_C9_runtime_config_validation_witness :
    validateOverrideDict zzzOverrides
      = Except.error "Unsupported override key: trading.zzz" ∧
    (cycleConfigStep JObj.nil JObj.nil zzzDoc 3600).paused = true ∧
    (cycleConfigStep JObj.nil JObj.nil zzzDoc 3600).config = JObj.nil ∧
    (cycleConfigStep JObj.nil JObj.nil zzzDoc 3600).sleptSeconds = 3600 := by
  have h := claim_C9_runtime_config_validation zzzOverrides "trading.zzz"
    (JVal.intv 1) [] [] JObj.nil JObj.nil zzzDoc 3600
  have h2 := h.2.1 (fun q w hm => absurd hm (List.not_mem_nil _)) rfl
  have hval : validateRuntimeConfig zzzDoc
      = Except.error "Unsupported override key: trading.zzz" := rfl
  have h3 := h.2.2.1 _ hval
  refine ⟨?_, by rw [h3], by rw [h3], by rw [h3]⟩
  unfold validateOverrideDict
  exact h2

/-- A document holding both an out-of-range known key (listed first) and
the unknown key trading.zzz. -/
def riskThenUnknownOverrides : JObj :=
  JObj.cons "trading"
    (JVal.obj (JObj.cons "risk_per_trade" (JVal.num 2)
      (JObj.cons "zzz" (JVal.intv 1) JObj.nil))) JObj.nil

/-- Counterexample to claim C9 as stated: this document contains an unknown
override path, yet `validate()` raises the earlier range error, naming
trading.risk_per_trade rather than the unknown path. -/
theorem claim_C9_first_error_counterexample :
    ("trading.zzz", JVal.intv 1) ∈
      flattenOverrides "" riskThenUnknownOverrides ∧
    allowedValidator "trading.zzz" = none ∧
    validateOverrideDict riskThenUnknownOverrides
      = Except.error "trading.risk_per_trade must be between 0 and 1" ∧
    ("trading.risk_per_trade must be between 0 and 1" : String)
      ≠ "Unsupported override key: trading.zzz" := by
  refine ⟨?_, rfl, rfl, by decide⟩
  have hflat : flattenOverrides "" riskThenUnknownOverrides
      = [("trading.risk_per_trade", JVal.num 2),
         ("trading.zzz", JVal.intv 1)] := rfl
  rw [hflat]
  exact List.mem_cons_of_mem _ (List.mem_cons_self _ _)

end AutoTrader
